import Mathlib

/-!
Frog: a PEG matching engine (`src/Frog.h`).

A shallow embedding of the matching engine of `Frog.h` and theorems about it.

Modelling conventions.

* `std::string` is a `List Char`; `size_t` values are natural numbers.  A text
  has fewer than `2 ^ 64` characters, so cursor arithmetic on values bounded by
  the text size never wraps and is written without a modulus; the one
  subtraction of `Frog.h` whose operands are not bounded by the text size (the
  span of a Sequence) is written with its wrap-around modulo `2 ^ 64`.
* The mutable cursor `ctx.loc` is threaded explicitly: every matcher takes the
  cursor and returns the `Result` together with the cursor it leaves.
* A rule reference `Pattern (*)()` is the number of a rule; an `Env` holds the
  table from rule numbers to the patterns the rule functions return.
* The engine recurses without bound, so `ParseSymbol` carries fuel: the number
  of nested `ParseSymbol` calls still allowed.
* Reading `str[loc]` with `loc > size`, forming `str.begin() + loc` past the
  end, and `str.substr(loc, n)` with `loc > size` do not return a value in
  C++ (undefined behaviour, respectively `std::out_of_range`); the matchers
  return a `Fault` there.
* `std::regex` is a library: a `RegularExpression` is the function
  `std::regex_search` computes on a character range.
-/

namespace frog

/-- The machine word of `size_t`. -/
def SIZE_MOD : Nat := 2 ^ 64

/-- Ways a call can end without a `Result`. -/
inductive Fault where
  /-- the nesting budget of the model ran out (the C++ call is still running) -/
  | outOfFuel
  /-- `str[loc]` or `str.begin() + loc` with `loc > str.size()` -/
  | undefinedRead
  /-- `str.substr(loc, n)` with `loc > str.size()` throws `std::out_of_range` -/
  | outOfRange
  deriving DecidableEq, Repr

/-- A `std::regex`, as the function `std::regex_search(first, last, m, rgx)`
computes on the range `[first, last)`: `none` when there is no match, else
`some (m.position(0), m.length(0))`.  The library contract that the match lies
inside the range is the field `within`. -/
structure RegularExpression where
  search : List Char → Option (Nat × Nat)
  within : ∀ s pos len, search s = some (pos, len) → pos + len ≤ s.length

mutual
/-- `using Pattern = std::variant<Character, CharacterSet, String,
RegularExpression, Choice, Sequence, Epsilon>`. -/
inductive Pattern where
  | Character (c : Char)
  | CharacterSet (chars : List Char)
  | String (s : List Char)
  | RegularExpression (rgx : frog.RegularExpression)
  | Choice (c : List Symbol)
  | Sequence (seq : List Symbol)
  | Epsilon
/-- `using Symbol = std::variant<Pattern, Pattern (*)()>`; a function pointer is
the number of the rule it points to. -/
inductive Symbol where
  | pattern (p : Pattern)
  | rule (f : Nat)
end

/-- `struct Result`. -/
structure Result where
  success : Bool
  index : Int
  str : List Char
  start : Nat
  length : Nat
  children : List Result

/-- What the program and its host supply besides the text and the start symbol.

* `rules f` is the Pattern the rule function numbered `f` returns.
* `longestSuccess`, `longestIndex`, `longestStart`, `longestLength` are the
  contents of the scalar members of the local `Result longest;` of
  `Parse(const ParseContext&, const Choice&)` right after its declaration.  The
  declaration has no initialiser, so these four members are indeterminate:
  they hold whatever the host left in that storage. -/
structure Env where
  rules : Nat → Pattern
  longestSuccess : Bool
  longestIndex : Int
  longestStart : Nat
  longestLength : Nat

/-- The local `Result longest;` right after its declaration: indeterminate
scalars, default constructed (empty) `str` and `children`. -/
def Env.longest (env : Env) : Result :=
  ⟨env.longestSuccess, env.longestIndex, [], env.longestStart, env.longestLength, []⟩

/-- What a matcher produces: the `Result` and the cursor it leaves, or a
`Fault`. -/
abbrev Outcome := Except Fault (Result × Nat)

/-- `ctx.str[ctx.loc]`: the character at `loc`, the terminator `'\0'` at
`loc = size`, and no value beyond. -/
def charAt (str : List Char) (loc : Nat) : Except Fault Char :=
  if h : loc < str.length then .ok (str.get ⟨loc, h⟩)
  else if loc = str.length then .ok (Char.ofNat 0)
  else .error .undefinedRead

/-- `ctx.str.substr(pos, n)`. -/
def substr (str : List Char) (pos n : Nat) : Except Fault (List Char) :=
  if pos ≤ str.length then .ok ((str.drop pos).take n) else .error .outOfRange

/-- `Result Parse(const ParseContext &ctx, Character c)`. -/
def ParseCharacter (str : List Char) (c : Char) (loc : Nat) : Outcome :=
  match charAt str loc with
  | .error e => .error e
  | .ok x =>
    if x = c then .ok (⟨true, 0, str, loc, 1, []⟩, loc + 1)
    else .ok (⟨false, 0, str, loc, 0, []⟩, loc)

/-- `Result Parse(const ParseContext &ctx, const CharacterSet &chars)`. -/
def ParseCharacterSet (str : List Char) (chars : List Char) (loc : Nat) : Outcome :=
  match charAt str loc with
  | .error e => .error e
  | .ok x =>
    if x ∈ chars then .ok (⟨true, 0, str, loc, 1, []⟩, loc + 1)
    else .ok (⟨false, 0, str, loc, 0, []⟩, loc)

/-- `Result Parse(const ParseContext &ctx, const String &s)`. -/
def ParseString (str : List Char) (s : List Char) (loc : Nat) : Outcome :=
  match substr str loc s.length with
  | .error e => .error e
  | .ok t =>
    if t = s then .ok (⟨true, 0, str, loc, s.length, []⟩, loc + s.length)
    else .ok (⟨false, 0, str, loc, 0, []⟩, loc)

/-- `Result Parse(const ParseContext &ctx, const RegularExpression &rgx)`: the
search runs on `[str.begin() + loc, str.end())` and only `m.length(0)` is
used. -/
def ParseRegularExpression (str : List Char) (rgx : RegularExpression) (loc : Nat) :
    Outcome :=
  if loc ≤ str.length then
    match rgx.search (str.drop loc) with
    | some m => .ok (⟨true, 0, str, loc, m.2, []⟩, loc + m.2)
    | none => .ok (⟨false, 0, str, loc, 0, []⟩, loc)
  else .error .undefinedRead

/-- The `for (auto sym: c)` loop of `Parse(const ParseContext&, const Choice&)`
with its locals `index` and `longest` and the cursor; `rec` is `ParseSymbol`. -/
def choiceLoop (rec : Symbol → Nat → Outcome) :
    List Symbol → Int → Result → Nat → Outcome
  | [], _, longest, loc => .ok (longest, loc)
  | sym :: rest, index, longest, loc =>
    let temp_loc := loc
    match rec sym loc with
    | .error e => .error e
    | .ok (result, loc1) =>
      let result := { result with index := index }
      if result.success then .ok (result, loc1)
      else
        choiceLoop rec rest (index + 1)
          (if result.length > longest.length then result else longest) temp_loc

/-- `Result Parse(const ParseContext &ctx, const Choice &c)`. -/
def ParseChoice (rec : Symbol → Nat → Outcome) (env : Env) (c : List Symbol)
    (loc : Nat) : Outcome :=
  choiceLoop rec c 0 env.longest loc

/-- The `for (auto s: seq)` loop of `Parse(const ParseContext&, const
Sequence&)`: the vector `children`, the flag `success` and the cursor when the
loop is left. -/
def sequenceLoop (rec : Symbol → Nat → Outcome) :
    List Symbol → List Result → Nat → Except Fault (List Result × Bool × Nat)
  | [], children, loc => .ok (children, true, loc)
  | s :: rest, children, loc =>
    match rec s loc with
    | .error e => .error e
    | .ok (result, loc1) =>
      let children := children ++ [result]
      if !result.success then .ok (children, false, loc1)
      else sequenceLoop rec rest children loc1

/-- `children.back().start + children.back().length - start` in `size_t`. -/
def spanLength (start lastStart lastLength : Nat) : Nat :=
  (((lastStart : Int) + (lastLength : Int) - (start : Int)) % (SIZE_MOD : Int)).toNat

/-- `Result Parse(const ParseContext &ctx, const Sequence &seq)`. -/
def ParseSequence (rec : Symbol → Nat → Outcome) (str : List Char)
    (seq : List Symbol) (loc : Nat) : Outcome :=
  match sequenceLoop rec seq [] loc with
  | .error e => .error e
  | .ok (children, success, loc1) =>
    match children.head?, children.getLast? with
    | some front, some back =>
      let start := front.start
      let length := spanLength start back.start back.length
      .ok (⟨success, 0, str, start, length, children⟩, loc1)
    | _, _ => .ok (⟨success, 0, str, loc1, 0, []⟩, loc1)

/-- `Result Parse(const ParseContext &ctx, const Epsilon &s)`. -/
def ParseEpsilon (str : List Char) (loc : Nat) : Outcome :=
  .ok (⟨true, 0, str, loc, 0, []⟩, loc)

/-- `Result Parse(const ParseContext &ctx, const Pattern &p)`: the `std::visit`
dispatch on the alternative held. -/
def ParsePattern (rec : Symbol → Nat → Outcome) (env : Env) (str : List Char) :
    Pattern → Nat → Outcome
  | .Character c, loc => ParseCharacter str c loc
  | .CharacterSet chars, loc => ParseCharacterSet str chars loc
  | .String s, loc => ParseString str s loc
  | .RegularExpression rgx, loc => ParseRegularExpression str rgx loc
  | .Choice c, loc => ParseChoice rec env c loc
  | .Sequence seq, loc => ParseSequence rec str seq loc
  | .Epsilon, loc => ParseEpsilon str loc

/-- `Result ParseSymbol(const ParseContext &ctx, Symbol sym)`: an inline
Pattern is matched directly, a rule reference is called and the Pattern it
returns is matched on the same text and cursor. -/
def ParseSymbol (env : Env) (str : List Char) : Nat → Symbol → Nat → Outcome
  | 0, _, _ => .error .outOfFuel
  | fuel + 1, .pattern p, loc => ParsePattern (ParseSymbol env str fuel) env str p loc
  | fuel + 1, .rule f, loc =>
    ParsePattern (ParseSymbol env str fuel) env str (env.rules f) loc

/-- `Result Parse(const std::string &str, Symbol sym)`. -/
def Parse (env : Env) (fuel : Nat) (str : List Char) (sym : Symbol) :
    Except Fault Result :=
  match ParseSymbol env str fuel sym 0 with
  | .error e => .error e
  | .ok (result, _) => .ok result

/-! ## Specification-side definitions -/


/-- The members of a Sequence matched left to right against the shared cursor,
as the specification words it: `SequenceRun rec seq p rs ok q` says that,
starting at cursor `p`, the members of `seq` were attempted in order, each from
the cursor its predecessor left, up to and including the first one that failed
(all of them when none failed); `rs` lists the Results of the attempted members
in order, `ok` tells whether every member succeeded, and `q` is the cursor the
last attempted member left. -/
inductive SequenceRun (rec : Symbol → Nat → Outcome) :
    List Symbol → Nat → List Result → Bool → Nat → Prop where
  | done (p : Nat) : SequenceRun rec [] p [] true p
  | failed (s : Symbol) (rest : List Symbol) (p : Nat) (r : Result) (q : Nat) :
      rec s p = .ok (r, q) → r.success = false →
      SequenceRun rec (s :: rest) p [r] false q
  | step (s : Symbol) (rest : List Symbol) (p : Nat) (r : Result) (p1 : Nat)
      (rs : List Result) (ok : Bool) (q : Nat) :
      rec s p = .ok (r, p1) → r.success = true → SequenceRun rec rest p1 rs ok q →
      SequenceRun rec (s :: rest) p (r :: rs) ok q


/-- The nodes of a Result tree: `Result.InTree n t` says that `n` is `t` itself
or a Result below it. -/
inductive Result.InTree : Result → Result → Prop where
  | root (t : Result) : Result.InTree t t
  | child (n c t : Result) : c ∈ t.children → Result.InTree n c → Result.InTree n t

mutual
/-- No Character terminal of the Pattern is `'\0'` and no CharacterSet of it
contains `'\0'` (rule references are not followed). -/
def Pattern.nulFree : Pattern → Bool
  | .Character c => c != Char.ofNat 0
  | .CharacterSet chars => !chars.contains (Char.ofNat 0)
  | .String _ => true
  | .RegularExpression _ => true
  | .Choice c => Symbol.nulFreeList c
  | .Sequence seq => Symbol.nulFreeList seq
  | .Epsilon => true
/-- The inline Pattern of the Symbol, if any, is `nulFree`. -/
def Symbol.nulFree : Symbol → Bool
  | .pattern p => p.nulFree
  | .rule _ => true
/-- Every Symbol of the list is `nulFree`. -/
def Symbol.nulFreeList : List Symbol → Bool
  | [] => true
  | s :: rest => s.nulFree && Symbol.nulFreeList rest
end

/-- A grammar none of whose Character or CharacterSet terminals can match the
string terminator `'\0'`: the start symbol and every rule are `nulFree`. -/
def NulFreeGrammar (env : Env) (sym : Symbol) : Prop :=
  sym.nulFree = true ∧ ∀ f, (env.rules f).nulFree = true

/-- The implicit conversion of a `char` to a `Symbol`. -/
def Symbol.ofChar (c : Char) : Symbol := .pattern (.Character c)

/-- The implicit conversion of a `std::string` to a `Symbol`. -/
def Symbol.ofString (s : List Char) : Symbol := .pattern (.String s)

/-- A host without rules whose storage for `longest` happens to be zeroed. -/
def zeroedEnv : Env := ⟨fun _ => .Epsilon, false, 0, 0, 0⟩

/-- A host without rules whose storage for `longest` holds a nonzero `success`
byte and the span `(1, 1)`. -/
def staleEnv : Env := ⟨fun _ => .Epsilon, true, 0, 1, 1⟩

/-- What a matcher started at cursor `p` owes when it returns a Result, for a
cursor bound `B`: the cursor does not move backwards nor beyond `B`, a
successful Result starts at `p` and spans exactly the input consumed, and every
successful Result of the tree ends within `B`. -/
def Coherent (B p : Nat) (o : Outcome) : Prop :=
  ∀ r q, o = .ok (r, q) →
    p ≤ q ∧ q ≤ B ∧ (r.success = true → r.start = p ∧ q = p + r.length) ∧
    ∀ n, Result.InTree n r → n.success = true → n.start + n.length ≤ B

/-- A call that does not abort: it is still running when the fuel ends, or it
returns a Result and leaves the cursor within `B`. -/
def Safe (B : Nat) (o : Outcome) : Prop :=
  o = .error .outOfFuel ∨ ∃ r q, o = .ok (r, q) ∧ q ≤ B

/-! ## Builder operators -/

/-- `Choice operator/(Choice a, Symbol b)`: `a.push_back(b); return a;`. -/
def operatorDivChoice (a : List Symbol) (b : Symbol) : List Symbol :=
  a ++ [b]

/-- `Choice operator/(Symbol a, Symbol b)`: an empty `choice`, then
`choice.push_back(a); choice.push_back(b);`. -/
def operatorDivSymbol (a b : Symbol) : List Symbol :=
  ([] ++ [a]) ++ [b]

/-! ## Regular expressions of the example grammars -/

/-- `std::regex {"^[0-9]+"}`: the longest run of decimal digits at the start of
the searched range, if it is not empty (`^` matches only where the range
starts, `+` is greedy). -/
def regexDigits : RegularExpression where
  search s :=
    let run := s.takeWhile Char.isDigit
    if run.length = 0 then none else some (0, run.length)
  within := by
    intro s pos len h
    simp only at h
    split at h
    · cases h
    · injection h with h
      injection h with h1 h2
      subst h1 h2
      have := (List.takeWhile_prefix Char.isDigit (l := s)).length_le
      omega

/-- `std::regex {"^\\\"[^\\\"]*\\\""}`, the expression `^"[^"]*"`: a double quote
at the start of the searched range, the characters up to the next double
quote, and that quote. -/
def regexQuoted : RegularExpression where
  search s :=
    match s with
    | [] => none
    | c :: rest =>
      if c = '"' then
        let body := rest.takeWhile (fun x => x != '"')
        match rest.drop body.length with
        | [] => none
        | _ :: _ => some (0, body.length + 2)
      else none
  within := by
    intro s pos len h
    cases s with
    | nil => simp at h
    | cons c rest =>
      simp only at h
      split at h
      · split at h
        · cases h
        · rename_i hd
          injection h with h
          injection h with h1 h2
          subst h1 h2
          have := congrArg List.length hd
          simp at this
          simp
          omega
      · cases h

/-- `std::regex` of a pattern that is one ordinary character `c` and carries no
anchor, such as `std::regex {"b"}`: the first occurrence of `c` in the searched
range. -/
def regexChar (c : Char) : RegularExpression where
  search s := if c ∈ s then some (s.indexOf c, 1) else none
  within := by
    intro s pos len h
    simp only at h
    split at h
    · rename_i hc
      injection h with h
      injection h with h1 h2
      subst h1 h2
      have := List.indexOf_lt_length.mpr hc
      omega
    · cases h

/-! ## The expression example (`examples/expression/grammar.hpp`) -/

/-- The function pointer `expression::grammar::Number`. -/
def expression.grammar.Number.ptr : Symbol := .rule 0

/-- The function pointer `expression::grammar::Factor`. -/
def expression.grammar.Factor.ptr : Symbol := .rule 1

/-- The function pointer `expression::grammar::Term_`. -/
def expression.grammar.Term_.ptr : Symbol := .rule 2

/-- The function pointer `expression::grammar::Term`. -/
def expression.grammar.Term.ptr : Symbol := .rule 3

/-- The function pointer `expression::grammar::Expression_`. -/
def expression.grammar.Expression_.ptr : Symbol := .rule 4

/-- The function pointer `expression::grammar::Expression`. -/
def expression.grammar.Expression.ptr : Symbol := .rule 5

/-- `frog::Pattern Number()`. -/
def expression.grammar.Number : Pattern := .RegularExpression regexDigits

/-- `frog::Pattern Factor()`: `Number / frog::Sequence{'(', Expression, ')'}`. -/
def expression.grammar.Factor : Pattern :=
  .Choice (operatorDivSymbol expression.grammar.Number.ptr
    (.pattern (.Sequence
      [Symbol.ofChar '(', expression.grammar.Expression.ptr, Symbol.ofChar ')'])))

/-- `frog::Pattern Term_()`. -/
def expression.grammar.Term_ : Pattern :=
  .Choice (operatorDivChoice
    (operatorDivSymbol
      (.pattern (.Sequence
        [Symbol.ofChar '*', expression.grammar.Factor.ptr, expression.grammar.Term_.ptr]))
      (.pattern (.Sequence
        [Symbol.ofChar '/', expression.grammar.Factor.ptr, expression.grammar.Term_.ptr])))
    (.pattern .Epsilon))

/-- `frog::Pattern Term()`. -/
def expression.grammar.Term : Pattern :=
  .Sequence [expression.grammar.Factor.ptr, expression.grammar.Term_.ptr]

/-- `frog::Pattern Expression_()`. -/
def expression.grammar.Expression_ : Pattern :=
  .Choice (operatorDivChoice
    (operatorDivSymbol
      (.pattern (.Sequence
        [Symbol.ofChar '+', expression.grammar.Term.ptr, expression.grammar.Expression_.ptr]))
      (.pattern (.Sequence
        [Symbol.ofChar '-', expression.grammar.Term.ptr, expression.grammar.Expression_.ptr])))
    (.pattern .Epsilon))

/-- `frog::Pattern Expression()`. -/
def expression.grammar.Expression : Pattern :=
  .Sequence [expression.grammar.Term.ptr, expression.grammar.Expression_.ptr]

/-- The rule functions of `expression::grammar` by number; the numbers that are
no rule of the grammar are never called. -/
def expression.grammar.rules : Nat → Pattern
  | 0 => expression.grammar.Number
  | 1 => expression.grammar.Factor
  | 2 => expression.grammar.Term_
  | 3 => expression.grammar.Term
  | 4 => expression.grammar.Expression_
  | 5 => expression.grammar.Expression
  | _ => .Epsilon

/-- Ways a semantic action can end without a value. -/
inductive ActionFault where
  /-- the nesting budget of the model ran out -/
  | outOfFuel
  /-- `children[i]` with `i` not below `children.size()` -/
  | outOfBounds
  /-- `substr` beyond the text, or `std::stoi` on a number no `int` holds -/
  | outOfRange
  /-- `std::stoi` on a text that starts with no number -/
  | invalidArgument
  /-- the `std::logic_error` thrown by the `default:` of a `switch` -/
  | logicError
  /-- signed overflow or division by zero of `int` -/
  | undefinedArithmetic
  deriving DecidableEq, Repr

/-- `const Result& operator[](int i) const` and `children[i]`. -/
def Result.child (tree : Result) (i : Nat) : Except ActionFault Result :=
  match tree.children[i]? with
  | some c => .ok c
  | none => .error .outOfBounds

/-- `substr(pos, n)` of a `std::string` or `std::string_view`, inside an action. -/
def actionSubstr (str : List Char) (pos n : Nat) : Except ActionFault (List Char) :=
  if pos ≤ str.length then .ok ((str.drop pos).take n) else .error .outOfRange

/-- A value of type `int`, if the number fits. -/
def asInt (v : Int) : Except ActionFault Int :=
  if -(2 ^ 31 : Int) ≤ v ∧ v < (2 ^ 31 : Int) then .ok v else .error .undefinedArithmetic

/-- `std::isspace` in the "C" locale. -/
def isSpace (c : Char) : Bool :=
  c = ' ' || (9 ≤ c.toNat && c.toNat ≤ 13)

/-- `std::stoi(lexeme)`: leading white space, an optional sign, then decimal
digits up to the first other character. -/
def stoi (lexeme : List Char) : Except ActionFault Int :=
  let s := lexeme.dropWhile isSpace
  let signed : Bool × List Char :=
    match s with
    | c :: rest => if c = '-' then (true, rest) else if c = '+' then (false, rest) else (false, s)
    | [] => (false, s)
  let digits := signed.2.takeWhile Char.isDigit
  if digits.length = 0 then .error .invalidArgument
  else
    let magnitude : Nat := digits.foldl (fun acc c => acc * 10 + (c.toNat - 48)) 0
    let value : Int := if signed.1 then -(magnitude : Int) else (magnitude : Int)
    if -(2 ^ 31 : Int) ≤ value ∧ value < (2 ^ 31 : Int) then .ok value
    else .error .outOfRange

/-- `int expression::action::Number(frog::Result tree)`. -/
def expression.action.Number (tree : Result) : Except ActionFault Int :=
  match actionSubstr tree.str tree.start tree.length with
  | .error e => .error e
  | .ok lexeme => stoi lexeme

mutual
/-- `int expression::action::Factor(frog::Result tree)`. -/
def expression.action.Factor : Nat → Result → Except ActionFault Int
  | 0, _ => .error .outOfFuel
  | fuel + 1, tree =>
    if tree.index = 0 then expression.action.Number tree
    else if tree.index = 1 then do
      let inner ← tree.child 1
      expression.action.Expression fuel inner
    else .error .logicError
/-- `int expression::action::Term_(int x, frog::Result tree)`. -/
def expression.action.Term_ : Nat → Int → Result → Except ActionFault Int
  | 0, _, _ => .error .outOfFuel
  | fuel + 1, x, tree =>
    if tree.index = 0 then do
      let y ← expression.action.Factor fuel (← tree.child 1)
      let v ← asInt (x * y)
      expression.action.Term_ fuel v (← tree.child 2)
    else if tree.index = 1 then do
      let y ← expression.action.Factor fuel (← tree.child 1)
      let v ← if y = 0 then .error .undefinedArithmetic else asInt (Int.tdiv x y)
      expression.action.Term_ fuel v (← tree.child 2)
    else if tree.index = 2 then .ok x
    else .error .logicError
/-- `int expression::action::Term(frog::Result tree)`. -/
def expression.action.Term : Nat → Result → Except ActionFault Int
  | 0, _ => .error .outOfFuel
  | fuel + 1, tree => do
    let x ← expression.action.Factor fuel (← tree.child 0)
    expression.action.Term_ fuel x (← tree.child 1)
/-- `int expression::action::Expression_(int x, frog::Result tree)`. -/
def expression.action.Expression_ : Nat → Int → Result → Except ActionFault Int
  | 0, _, _ => .error .outOfFuel
  | fuel + 1, x, tree =>
    if tree.index = 0 then do
      let y ← expression.action.Term fuel (← tree.child 1)
      let v ← asInt (x + y)
      expression.action.Expression_ fuel v (← tree.child 2)
    else if tree.index = 1 then do
      let y ← expression.action.Term fuel (← tree.child 1)
      let v ← asInt (x - y)
      expression.action.Expression_ fuel v (← tree.child 2)
    else if tree.index = 2 then .ok x
    else .error .logicError
/-- `int expression::action::Expression(frog::Result tree)`. -/
def expression.action.Expression : Nat → Result → Except ActionFault Int
  | 0, _ => .error .outOfFuel
  | fuel + 1, tree => do
    let x ← expression.action.Term fuel (← tree.child 0)
    expression.action.Expression_ fuel x (← tree.child 1)
end

/-- The text of the arithmetic scenario, `1+2*3`. -/
def expression.scenario : List Char := ['1', '+', '2', '*', '3']

/-- The Result tree of `Expression` on `1+2*3`: a Term for `1` with an empty
tail, and the tail `+ Term Expression_` whose Term is `2` followed by `* 3`. -/
def expression.scenarioTree : Result :=
  let str := expression.scenario
  ⟨true, 0, str, 0, 5,
    [⟨true, 0, str, 0, 1, [⟨true, 0, str, 0, 1, []⟩, ⟨true, 2, str, 1, 0, []⟩]⟩,
     ⟨true, 0, str, 1, 4,
      [⟨true, 0, str, 1, 1, []⟩,
       ⟨true, 0, str, 2, 3,
        [⟨true, 0, str, 2, 1, []⟩,
         ⟨true, 0, str, 3, 2,
          [⟨true, 0, str, 3, 1, []⟩, ⟨true, 0, str, 4, 1, []⟩, ⟨true, 2, str, 5, 0, []⟩]⟩]⟩,
       ⟨true, 2, str, 5, 0, []⟩]⟩]⟩

/-! ## The JSON example (`examples/json`) -/

/-- The function pointer `json::grammar::Number`. -/
def json.grammar.Number.ptr : Symbol := .rule 0

/-- The function pointer `json::grammar::String`. -/
def json.grammar.String.ptr : Symbol := .rule 1

/-- The function pointer `json::grammar::Value`. -/
def json.grammar.Value.ptr : Symbol := .rule 2

/-- The function pointer `json::grammar::ValueList`. -/
def json.grammar.ValueList.ptr : Symbol := .rule 3

/-- The function pointer `json::grammar::Array`. -/
def json.grammar.Array.ptr : Symbol := .rule 4

/-- The function pointer `json::grammar::Property`. -/
def json.grammar.Property.ptr : Symbol := .rule 5

/-- The function pointer `json::grammar::PropertyList`. -/
def json.grammar.PropertyList.ptr : Symbol := .rule 6

/-- The function pointer `json::grammar::Object`. -/
def json.grammar.Object.ptr : Symbol := .rule 7

/-- The function pointer `json::grammar::Start`. -/
def json.grammar.Start.ptr : Symbol := .rule 8

/-- `frog::Pattern Number()`. -/
def json.grammar.Number : Pattern := .RegularExpression regexDigits

/-- `frog::Pattern String()`. -/
def json.grammar.String : Pattern := .RegularExpression regexQuoted

/-- `frog::Pattern Value()`. -/
def json.grammar.Value : Pattern :=
  .Choice [json.grammar.Number.ptr, json.grammar.String.ptr, json.grammar.Array.ptr,
    json.grammar.Object.ptr]

/-- `frog::Pattern ValueList()`. -/
def json.grammar.ValueList : Pattern :=
  .Choice
    [.pattern (.Sequence
      [json.grammar.Value.ptr, Symbol.ofChar ',', json.grammar.ValueList.ptr]),
     json.grammar.Value.ptr]

/-- `frog::Pattern Array()`. -/
def json.grammar.Array : Pattern :=
  .Choice
    [.pattern (.Sequence [Symbol.ofChar '[', json.grammar.ValueList.ptr, Symbol.ofChar ']']),
     .pattern (.Sequence [Symbol.ofChar '[', Symbol.ofChar ']'])]

/-- `frog::Pattern Property()`. -/
def json.grammar.Property : Pattern :=
  .Sequence [json.grammar.String.ptr, Symbol.ofChar ':', json.grammar.Value.ptr]

/-- `frog::Pattern PropertyList()`. -/
def json.grammar.PropertyList : Pattern :=
  .Choice
    [.pattern (.Sequence
      [json.grammar.Property.ptr, Symbol.ofChar ',', json.grammar.PropertyList.ptr]),
     json.grammar.Property.ptr]

/-- `frog::Pattern Object()`. -/
def json.grammar.Object : Pattern :=
  .Choice
    [.pattern (.Sequence
      [Symbol.ofChar '{', json.grammar.PropertyList.ptr, Symbol.ofChar '}']),
     .pattern (.Sequence [Symbol.ofChar '{', Symbol.ofChar '}'])]

/-- `frog::Pattern Start()`. -/
def json.grammar.Start : Pattern :=
  .Sequence [json.grammar.Value.ptr, Symbol.ofChar (Char.ofNat 0)]

/-- The rule functions of `json::grammar` by number; the numbers that are no
rule of the grammar are never called. -/
def json.grammar.rules : Nat → Pattern
  | 0 => json.grammar.Number
  | 1 => json.grammar.String
  | 2 => json.grammar.Value
  | 3 => json.grammar.ValueList
  | 4 => json.grammar.Array
  | 5 => json.grammar.Property
  | 6 => json.grammar.PropertyList
  | 7 => json.grammar.Object
  | 8 => json.grammar.Start
  | _ => .Epsilon

/-- `json::Value`, with `json::Array` a list of values and `json::Object` the
entries of the `std::map` in key order.  The alternative `double` of the
variant is left out: no action constructs it. -/
inductive json.Value where
  | int (v : Int)
  | string (s : List Char)
  | array (a : List json.Value)
  | object (o : List (List Char × json.Value))

/-- `operator<` of `std::string`: lexicographic on the character codes. -/
def stringLess : List Char → List Char → Bool
  | [], [] => false
  | [], _ :: _ => true
  | _ :: _, [] => false
  | a :: as, b :: bs => a.toNat < b.toNat || (a = b && stringLess as bs)

/-- `std::map::emplace`: the entry is put at its place in key order unless the
key is present already. -/
def mapEmplace (entry : List Char × json.Value) :
    List (List Char × json.Value) → List (List Char × json.Value)
  | [] => [entry]
  | e :: rest =>
    if entry.1 = e.1 then e :: rest
    else if stringLess entry.1 e.1 then entry :: e :: rest
    else e :: mapEmplace entry rest

/-- `int json::action::Number(const frog::ParseContext &ctx, frog::Result res)`. -/
def json.action.Number (str : List Char) (res : Result) : Except ActionFault Int :=
  match actionSubstr str res.start res.length with
  | .error e => .error e
  | .ok lexeme => stoi lexeme

/-- `std::string json::action::String(const frog::ParseContext &ctx, frog::Result
res)`: `ctx.str.substr(res.start + 1, res.length - 2)` in `size_t`. -/
def json.action.String (str : List Char) (res : Result) : Except ActionFault (List Char) :=
  actionSubstr str ((res.start + 1) % SIZE_MOD) ((res.length + SIZE_MOD - 2) % SIZE_MOD)

mutual
/-- `json::Array json::action::ValueList(const frog::ParseContext &ctx,
frog::Result res)`. -/
def json.action.ValueList (listInitCopies : Bool) (str : List Char) :
    Nat → Result → Except ActionFault (List json.Value)
  | 0, _ => .error .outOfFuel
  | fuel + 1, res => do
    let choice ← res.child 0
    if choice.index = 0 then do
      let result ← json.action.ValueList listInitCopies str fuel
        (← (← choice.child 0).child 2)
      let first ← json.action.Value listInitCopies str fuel (← (← choice.child 0).child 0)
      .ok (first :: result)
    else if choice.index = 1 then do
      let only ← json.action.Value listInitCopies str fuel (← choice.child 0)
      .ok [only]
    else .error .logicError
/-- `json::Array json::action::Array(const frog::ParseContext &ctx, frog::Result
res)`.  Its `return { ValueList(...) };` list-initialises a `json::Array` from
one `json::Array`; compilers differ on whether that copies the array
(`listInitCopies`) or builds the array whose one element is that array. -/
def json.action.Array (listInitCopies : Bool) (str : List Char) :
    Nat → Result → Except ActionFault (List json.Value)
  | 0, _ => .error .outOfFuel
  | fuel + 1, res => do
    let choice ← res.child 0
    if choice.index = 0 then do
      let list ← json.action.ValueList listInitCopies str fuel
        (← (← choice.child 0).child 1)
      if listInitCopies then .ok list else .ok [json.Value.array list]
    else if choice.index = 1 then .ok []
    else .error .logicError
/-- `std::pair<const std::string, json::Value> json::action::Property(...)`. -/
def json.action.Property (listInitCopies : Bool) (str : List Char) :
    Nat → Result → Except ActionFault (List Char × json.Value)
  | 0, _ => .error .outOfFuel
  | fuel + 1, res => do
    let sequence ← res.child 0
    let key ← json.action.String str (← sequence.child 0)
    let value ← json.action.Value listInitCopies str fuel (← sequence.child 2)
    .ok (key, value)
/-- `json::Object json::action::PropertyList(...)`. -/
def json.action.PropertyList (listInitCopies : Bool) (str : List Char) :
    Nat → Result → Except ActionFault (List (List Char × json.Value))
  | 0, _ => .error .outOfFuel
  | fuel + 1, res => do
    let choice ← res.child 0
    if choice.index = 0 then do
      let result ← json.action.PropertyList listInitCopies str fuel
        (← (← choice.child 0).child 2)
      let entry ← json.action.Property listInitCopies str fuel
        (← (← choice.child 0).child 0)
      .ok (mapEmplace entry result)
    else if choice.index = 1 then do
      let entry ← json.action.Property listInitCopies str fuel (← choice.child 0)
      .ok [entry]
    else .error .logicError
/-- `json::Object json::action::Object(...)`. -/
def json.action.Object (listInitCopies : Bool) (str : List Char) :
    Nat → Result → Except ActionFault (List (List Char × json.Value))
  | 0, _ => .error .outOfFuel
  | fuel + 1, res => do
    let choice ← res.child 0
    let sequence ← choice.child 0
    if choice.index = 0 then
      json.action.PropertyList listInitCopies str fuel (← sequence.child 1)
    else if choice.index = 1 then .ok []
    else .error .logicError
/-- `json::Value json::action::Value(...)`. -/
def json.action.Value (listInitCopies : Bool) (str : List Char) :
    Nat → Result → Except ActionFault json.Value
  | 0, _ => .error .outOfFuel
  | fuel + 1, res => do
    let choice ← res.child 0
    if choice.index = 0 then do
      let n ← json.action.Number str (← choice.child 0)
      .ok (json.Value.int n)
    else if choice.index = 1 then do
      let s ← json.action.String str (← choice.child 0)
      .ok (json.Value.string s)
    else if choice.index = 2 then do
      let a ← json.action.Array listInitCopies str fuel (← choice.child 0)
      .ok (json.Value.array a)
    else if choice.index = 3 then do
      let o ← json.action.Object listInitCopies str fuel (← choice.child 0)
      .ok (json.Value.object o)
    else .error .logicError
end

/-- `json::Value json::action::Start(...)`. -/
def json.action.Start (listInitCopies : Bool) (str : List Char) (fuel : Nat)
    (res : Result) : Except ActionFault json.Value := do
  let sequence ← res.child 0
  json.action.Value listInitCopies str fuel (← sequence.child 0)

/-- The text of the JSON scenario, `[1,2,3]`. -/
def json.scenario : List Char := ['[', '1', ',', '2', ',', '3', ']']

/-- The Result tree of `Array` on `[1,2,3]`: the Result of the Sequence
`'[' ValueList ']'`, whose children are the Results of the bracket, of the
value list and of the closing bracket. -/
def json.scenarioTree : Result :=
  let str := json.scenario
  ⟨true, 0, str, 0, 7,
    [⟨true, 0, str, 0, 1, []⟩,
     ⟨true, 0, str, 1, 5,
      [⟨true, 0, str, 1, 1, []⟩, ⟨true, 0, str, 2, 1, []⟩,
       ⟨true, 0, str, 3, 3,
        [⟨true, 0, str, 3, 1, []⟩, ⟨true, 0, str, 4, 1, []⟩, ⟨true, 1, str, 5, 1, []⟩]⟩]⟩,
     ⟨true, 0, str, 6, 1, []⟩]⟩

/-- A grammar whose rule 0 is the left recursive `Sequence {R, 'a'}` and whose
other rules are the left recursive `R / 'a'`. -/
def leftRecursiveEnv : Env :=
  ⟨fun f => if f = 0 then .Sequence [.rule 0, Symbol.ofChar 'a']
    else .Choice (operatorDivSymbol (.rule f) (Symbol.ofChar 'a')), false, 0, 0, 0⟩

/-! ## Choice -/


theorem choiceLoop_cons_fail (rec : Symbol → Nat → Outcome) (sym : Symbol)
    (rest : List Symbol) (index : Int) (longest : Result) (loc : Nat) (rj : Result)
    (qj : Nat) (h : rec sym loc = .ok (rj, qj)) (hfail : rj.success = false) :
    choiceLoop rec (sym :: rest) index longest loc
      = choiceLoop rec rest (index + 1)
          (if rj.length > longest.length then { rj with index := index } else longest)
          loc := by
  simp [choiceLoop, h, hfail]

theorem choiceLoop_cons_success (rec : Symbol → Nat → Outcome) (sym : Symbol)
    (rest : List Symbol) (index : Int) (longest : Result) (loc : Nat) (r : Result)
    (q : Nat) (h : rec sym loc = .ok (r, q)) (hr : r.success = true) :
    choiceLoop rec (sym :: rest) index longest loc
      = .ok ({ r with index := index }, q) := by
  simp [choiceLoop, h, hr]

theorem choiceLoop_first_success (rec : Symbol → Nat → Outcome) (alt : Symbol)
    (after : List Symbol) (p : Nat) (r : Result) (q : Nat)
    (halt : rec alt p = .ok (r, q)) (hr : r.success = true) :
    ∀ (before : List Symbol) (index : Int) (longest : Result),
      (∀ s ∈ before, ∃ rj qj, rec s p = .ok (rj, qj) ∧ rj.success = false) →
      choiceLoop rec (before ++ alt :: after) index longest p
        = .ok ({ r with index := index + before.length }, q) := by
  intro before
  induction before with
  | nil =>
    intro index longest _
    rw [List.nil_append, choiceLoop_cons_success rec alt _ index longest p r q halt hr]
    simp
  | cons b bs ih =>
    intro index longest hb
    obtain ⟨rj, qj, hrj, hfail⟩ := hb b (List.mem_cons_self _ _)
    have hbs : ∀ s ∈ bs, ∃ rj qj, rec s p = .ok (rj, qj) ∧ rj.success = false :=
      fun s hs => hb s (List.mem_cons_of_mem _ hs)
    rw [List.cons_append, choiceLoop_cons_fail rec b _ index longest p rj qj hrj hfail,
      ih (index + 1) _ hbs]
    have : index + 1 + (bs.length : Int) = index + ((b :: bs).length : Int) := by
      simp only [List.length_cons]; push_cast; ring
    rw [this]

/-- C1: ordered choice, first success wins.  If alternative `i` of a Choice
succeeds when matched from cursor `p` and every alternative before it returns a
failing Result when matched from `p`, then the Choice returns exactly the Result
of alternative `i` with `index` set to `i`, and leaves the cursor where
alternative `i` left it; the same holds whatever alternatives follow `i`, so
they are never attempted. -/
theorem choice_first_success (env : Env) (str : List Char) (fuel : Nat)
    (alts : List Symbol) (p i : Nat) (alt : Symbol) (r : Result) (q : Nat)
    (hi : alts[i]? = some alt)
    (hbefore : ∀ j s, j < i → alts[j]? = some s →
      ∃ rj qj, ParseSymbol env str fuel s p = .ok (rj, qj) ∧ rj.success = false)
    (halt : ParseSymbol env str fuel alt p = .ok (r, q)) (hr : r.success = true) :
    ParseSymbol env str (fuel + 1) (.pattern (.Choice alts)) p
        = .ok ({ r with index := (i : Int) }, q) ∧
      ∀ later : List Symbol,
        ParseSymbol env str (fuel + 1) (.pattern (.Choice (alts.take (i + 1) ++ later))) p
          = .ok ({ r with index := (i : Int) }, q) := by
  have hlt : i < alts.length := by
    rcases Nat.lt_or_ge i alts.length with h | h
    · exact h
    · rw [List.getElem?_eq_none h] at hi; cases hi
  have hget : alts[i] = alt := by
    rw [List.getElem?_eq_getElem hlt] at hi; exact Option.some.inj hi
  have hpre : ∀ s ∈ alts.take i,
      ∃ rj qj, ParseSymbol env str fuel s p = .ok (rj, qj) ∧ rj.success = false := by
    intro s hs
    obtain ⟨j, hj, rfl⟩ := List.getElem_of_mem hs
    have hj2 : j < i := by
      have := hj; simp at this; omega
    apply hbefore j _ hj2
    rw [List.getElem_take]
    exact List.getElem?_eq_getElem _
  have hlen : (alts.take i).length = i := by simp; omega
  have key : ∀ later : List Symbol,
      ParseSymbol env str (fuel + 1) (.pattern (.Choice (alts.take i ++ alt :: later))) p
          = .ok ({ r with index := (i : Int) }, q) := by
    intro later
    simp only [ParseSymbol, ParsePattern, ParseChoice]
    rw [choiceLoop_first_success _ alt later p r q halt hr _ 0 _ hpre, hlen]
    simp
  have hsplit : alts = alts.take i ++ alt :: alts.drop (i + 1) := by
    rw [← hget, List.getElem_cons_drop, List.take_append_drop]
  have htake : alts.take (i + 1) = alts.take i ++ [alt] := by
    rw [← hget, List.take_succ, List.getElem?_eq_getElem hlt]; rfl
  refine ⟨?_, ?_⟩
  · have := key (alts.drop (i + 1))
    rw [← hsplit] at this
    exact this
  · intro later
    rw [htake, List.append_assoc]
    exact key later


/-! ## Sequence -/

theorem sequenceLoop_of_run (rec : Symbol → Nat → Outcome) (seq : List Symbol) (p : Nat)
    (rs : List Result) (ok : Bool) (q : Nat) (h : SequenceRun rec seq p rs ok q) :
    ∀ acc : List Result, sequenceLoop rec seq acc p = .ok (acc ++ rs, ok, q) := by
  induction h with
  | done p => intro acc; simp [sequenceLoop]
  | failed s rest p r q hs hr => intro acc; simp [sequenceLoop, hs, hr]
  | step s rest p r p1 rs ok q hs hr _ ih =>
    intro acc
    simp [sequenceLoop, hs, hr, ih]

theorem run_of_sequenceLoop (rec : Symbol → Nat → Outcome) :
    ∀ (seq : List Symbol) (acc : List Result) (p : Nat) (cs : List Result) (ok : Bool)
      (q : Nat), sequenceLoop rec seq acc p = .ok (cs, ok, q) →
      ∃ rs, cs = acc ++ rs ∧ SequenceRun rec seq p rs ok q := by
  intro seq
  induction seq with
  | nil =>
    intro acc p cs ok q h
    simp [sequenceLoop] at h
    obtain ⟨rfl, rfl, rfl⟩ := h
    exact ⟨[], by simp, .done _⟩
  | cons s rest ih =>
    intro acc p cs ok q h
    rw [sequenceLoop] at h
    cases hs : rec s p with
    | error e => rw [hs] at h; cases h
    | ok v =>
      obtain ⟨r, p1⟩ := v
      rw [hs] at h
      cases hr : r.success with
      | false =>
        simp [hr] at h
        obtain ⟨rfl, rfl, rfl⟩ := h
        exact ⟨[r], rfl, .failed s rest p r p1 hs hr⟩
      | true =>
        simp [hr] at h
        obtain ⟨rs, rfl, hrun⟩ := ih _ _ _ _ _ h
        exact ⟨r :: rs, by simp, .step s rest p r p1 rs ok q hs hr hrun⟩

theorem SequenceRun.shape {rec : Symbol → Nat → Outcome} {seq : List Symbol} {p : Nat}
    {rs : List Result} {ok : Bool} {q : Nat} (h : SequenceRun rec seq p rs ok q) :
    rs.length ≤ seq.length ∧
    (ok = true ↔ rs.length = seq.length ∧ ∀ r ∈ rs, r.success = true) ∧
    (ok = false → ∃ front last, rs = front ++ [last] ∧ last.success = false ∧
      ∀ r ∈ front, r.success = true) := by
  induction h with
  | done p => simp
  | failed s rest p r q hs hr =>
    refine ⟨by simp, ?_, ?_⟩
    · simp [hr]
    · intro _; exact ⟨[], r, rfl, hr, by simp⟩
  | step s rest p r p1 rs ok q hs hr _ ih =>
    obtain ⟨h1, h2, h3⟩ := ih
    refine ⟨by simpa using h1, ?_, ?_⟩
    · rw [h2]; simp [hr]
    · intro hok
      obtain ⟨front, last, rfl, hl, hf⟩ := h3 hok
      refine ⟨r :: front, last, rfl, hl, ?_⟩
      intro x hx
      rcases List.mem_cons.mp hx with rfl | hx
      · exact hr
      · exact hf x hx


theorem spanLength_mod (s a b : Nat) :
    (s + spanLength s a b) % SIZE_MOD = (a + b) % SIZE_MOD := by
  unfold spanLength SIZE_MOD
  omega

theorem spanLength_exact (s a b : Nat) (h1 : s ≤ a + b) (h2 : a + b < SIZE_MOD) :
    s + spanLength s a b = a + b := by
  unfold spanLength SIZE_MOD at *
  omega

theorem SequenceRun.append {rec : Symbol → Nat → Outcome} {before : List Symbol} {p : Nat}
    {rs : List Result} {b : Bool} {pk : Nat} (h : SequenceRun rec before p rs b pk) :
    b = true → ∀ (rest : List Symbol) (rs2 : List Result) (ok : Bool) (q : Nat),
      SequenceRun rec rest pk rs2 ok q →
      SequenceRun rec (before ++ rest) p (rs ++ rs2) ok q := by
  induction h with
  | done p => intro _ rest rs2 ok q h2; simpa using h2
  | failed s rest p r q hs hr => intro hb; cases hb
  | step s rest p r p1 rs ok q hs hr _ ih =>
    intro hb rest2 rs2 ok2 q2 h2
    exact .step s _ p r p1 _ ok2 q2 hs hr (ih hb rest2 rs2 ok2 q2 h2)

theorem ParseSequence_of_run (rec : Symbol → Nat → Outcome) (str : List Char)
    (seq : List Symbol) (p : Nat) (rs : List Result) (ok : Bool) (q : Nat)
    (h : SequenceRun rec seq p rs ok q) :
    ∃ res, ParseSequence rec str seq p = .ok (res, q) ∧ res.children = rs ∧
      res.success = ok := by
  unfold ParseSequence
  rw [sequenceLoop_of_run rec seq p rs ok q h []]
  simp only [List.nil_append]
  cases rs with
  | nil => exact ⟨_, rfl, rfl, rfl⟩
  | cons r rest =>
    cases hl : (r :: rest).getLast? with
    | none => simp at hl
    | some back => exact ⟨_, rfl, rfl, rfl⟩

theorem run_of_ParseSequence (rec : Symbol → Nat → Outcome) (str : List Char)
    (seq : List Symbol) (p : Nat) (res : Result) (q : Nat)
    (h : ParseSequence rec str seq p = .ok (res, q)) :
    SequenceRun rec seq p res.children res.success q := by
  unfold ParseSequence at h
  cases hloop : sequenceLoop rec seq [] p with
  | error e => rw [hloop] at h; cases h
  | ok v =>
    obtain ⟨cs, ok, q1⟩ := v
    rw [hloop] at h
    obtain ⟨rs, hcs, hrun⟩ := run_of_sequenceLoop _ _ _ _ _ _ _ hloop
    simp only [List.nil_append] at hcs
    subst hcs
    cases cs with
    | nil =>
      simp only [List.head?_nil] at h
      injection h with h
      injection h with e1 e2
      subst e1 e2
      exact hrun
    | cons r rest =>
      cases hl : (r :: rest).getLast? with
      | none => simp at hl
      | some back =>
        simp only [List.head?_cons, hl] at h
        injection h with h
        injection h with e1 e2
        subst e1 e2
        exact hrun

/-- C4: a Sequence whose members are matched left to right against the shared
cursor returns a Result whose `children` are exactly the Results of the members
attempted, in order, and whose `success` is true iff every member succeeded:
all members when it succeeds, and the members up to and including the first one
to fail (the last child) when it fails.  Conversely the `children` and
`success` of every Result a Sequence returns come from such a run of its
members. -/
theorem sequence_success_and_children (env : Env) (str : List Char) (fuel : Nat)
    (seq : List Symbol) (p : Nat) :
    (∀ (rs : List Result) (ok : Bool) (q : Nat),
      SequenceRun (ParseSymbol env str fuel) seq p rs ok q →
      ∃ res, ParseSymbol env str (fuel + 1) (.pattern (.Sequence seq)) p = .ok (res, q) ∧
        res.children = rs ∧ res.success = ok ∧
        (res.success = true ↔ rs.length = seq.length ∧ ∀ r ∈ rs, r.success = true) ∧
        (res.success = false → ∃ front last, rs = front ++ [last] ∧
          front.length < seq.length ∧ last.success = false ∧
          ∀ r ∈ front, r.success = true)) ∧
    (∀ (res : Result) (q : Nat),
      ParseSymbol env str (fuel + 1) (.pattern (.Sequence seq)) p = .ok (res, q) →
      SequenceRun (ParseSymbol env str fuel) seq p res.children res.success q) := by
  constructor
  · intro rs ok q hrun
    obtain ⟨res, h1, h2, h3⟩ := ParseSequence_of_run _ str seq p rs ok q hrun
    obtain ⟨s1, s2, s3⟩ := hrun.shape
    refine ⟨res, by simpa [ParseSymbol, ParsePattern] using h1, h2, h3, ?_, ?_⟩
    · rw [h3]; exact s2
    · intro hf
      rw [h3] at hf
      obtain ⟨front, last, rfl, hl, hfr⟩ := s3 hf
      refine ⟨front, last, rfl, ?_, hl, hfr⟩
      simp at s1; omega
  · intro res q h
    exact run_of_ParseSequence _ str seq p res q
      (by simpa [ParseSymbol, ParsePattern] using h)

/-- C9: a Sequence does not rewind on its own failure.  When the members
`before` succeed in order from cursor `p`, reaching cursor `pk`, and the next
member fails there leaving cursor `q`, the Sequence returns a failing Result
and the cursor is `q`, not `p`. -/
theorem sequence_failure_keeps_cursor (env : Env) (str : List Char) (fuel : Nat)
    (before : List Symbol) (s : Symbol) (after : List Symbol) (p : Nat)
    (rs : List Result) (pk : Nat) (r : Result) (q : Nat)
    (hbefore : SequenceRun (ParseSymbol env str fuel) before p rs true pk)
    (hs : ParseSymbol env str fuel s pk = .ok (r, q)) (hr : r.success = false) :
    ∃ res, ParseSymbol env str (fuel + 1) (.pattern (.Sequence (before ++ s :: after))) p
        = .ok (res, q) ∧ res.success = false ∧ res.children = rs ++ [r] := by
  have hrun := hbefore.append rfl (s :: after) [r] false q (.failed s after pk r q hs hr)
  obtain ⟨res, h1, h2, h3⟩ := ParseSequence_of_run _ str _ p _ false q hrun
  exact ⟨res, by simpa [ParseSymbol, ParsePattern] using h1, h3, h2⟩

/-- The span a non-empty Sequence computes, in the arithmetic of `size_t`:
`start` is the first child's `start`, and `start + length` agrees with the last
child's `start + length` modulo `2 ^ 64`, hence as numbers when the last child
ends at or after the first child's start. -/
theorem sequence_span_modular (env : Env) (str : List Char) (fuel : Nat) (seq : List Symbol)
    (p : Nat) (res : Result) (q : Nat) (hne : seq ≠ [])
    (h : ParseSymbol env str (fuel + 1) (.pattern (.Sequence seq)) p = .ok (res, q)) :
    ∃ first last, res.children.head? = some first ∧ res.children.getLast? = some last ∧
      res.start = first.start ∧
      (res.start + res.length) % SIZE_MOD = (last.start + last.length) % SIZE_MOD ∧
      (first.start ≤ last.start + last.length → last.start + last.length < SIZE_MOD →
        res.start + res.length = last.start + last.length) := by
  simp only [ParseSymbol, ParsePattern, ParseSequence] at h
  cases hloop : sequenceLoop (ParseSymbol env str fuel) seq [] p with
  | error e => rw [hloop] at h; cases h
  | ok v =>
    obtain ⟨cs, ok, q1⟩ := v
    rw [hloop] at h
    obtain ⟨rs, hcs, hrun⟩ := run_of_sequenceLoop _ _ _ _ _ _ _ hloop
    simp only [List.nil_append] at hcs
    subst hcs
    cases cs with
    | nil => cases hrun; exact absurd rfl hne
    | cons r rest =>
      cases hl : (r :: rest).getLast? with
      | none => simp at hl
      | some back =>
        simp only [List.head?_cons, hl] at h
        injection h with h
        injection h with h1 h2
        subst h1
        exact ⟨r, back, rfl, hl, rfl, spanLength_mod _ _ _,
          fun a b => spanLength_exact _ _ _ a b⟩


/-! ## Span bounds -/

theorem Result.InTree.cases_children {n t : Result} (h : Result.InTree n t) :
    n = t ∨ ∃ c ∈ t.children, Result.InTree n c :=
  match h with
  | .root _ => Or.inl rfl
  | .child _ c _ hc hn => Or.inr ⟨c, hc, hn⟩

theorem charAt_ok_le (str : List Char) (p : Nat) (x : Char) (h : charAt str p = .ok x) :
    p ≤ str.length := by
  unfold charAt at h
  split at h
  · omega
  · split at h
    · omega
    · cases h

theorem charAt_end (str : List Char) : charAt str str.length = .ok (Char.ofNat 0) := by
  simp [charAt]

theorem coherent_leaf (B p q : Nat) (r : Result) (hpq : p ≤ q) (hq : q ≤ B)
    (hc : r.children = [])
    (hs : r.success = true → r.start = p ∧ q = p + r.length) :
    Coherent B p (.ok (r, q)) := by
  intro r1 q1 h
  injection h with h
  injection h with h1 h2
  subst h1 h2
  refine ⟨hpq, hq, hs, ?_⟩
  intro n hn hsn
  rcases hn.cases_children with rfl | ⟨c, hc1, _⟩
  · obtain ⟨h1, h2⟩ := hs hsn
    omega
  · rw [hc] at hc1; cases hc1

theorem coherent_error (B p : Nat) (e : Fault) : Coherent B p (.error e) := by
  intro r q h; cases h

theorem ParseCharacter_coherent (str : List Char) (c : Char) (p : Nat) :
    Coherent (str.length + 1) p (ParseCharacter str c p) := by
  unfold ParseCharacter
  cases hx : charAt str p with
  | error e => exact coherent_error _ _ _
  | ok x =>
    have hp := charAt_ok_le str p x hx
    by_cases hxc : x = c
    · simp only [hxc, if_true]
      exact coherent_leaf _ _ _ _ (by omega) (by omega) rfl (fun _ => ⟨rfl, rfl⟩)
    · simp only [hxc, if_false]
      exact coherent_leaf _ _ _ _ (by omega) (by omega) rfl (fun h => by cases h)

theorem ParseCharacter_coherent_nulFree (str : List Char) (c : Char) (p : Nat)
    (hc : c ≠ Char.ofNat 0) : Coherent str.length p (ParseCharacter str c p) := by
  unfold ParseCharacter
  cases hx : charAt str p with
  | error e => exact coherent_error _ _ _
  | ok x =>
    have hp := charAt_ok_le str p x hx
    by_cases hxc : x = c
    · simp only [hxc, if_true]
      have : p ≠ str.length := by
        intro hpe
        rw [hpe, charAt_end] at hx
        injection hx with hx
        exact hc (hx ▸ hxc).symm
      exact coherent_leaf _ _ _ _ (by omega) (by omega) rfl (fun _ => ⟨rfl, rfl⟩)
    · simp only [hxc, if_false]
      exact coherent_leaf _ _ _ _ (by omega) (by omega) rfl (fun h => by cases h)

theorem ParseCharacterSet_coherent (str : List Char) (chars : List Char) (p : Nat) :
    Coherent (str.length + 1) p (ParseCharacterSet str chars p) := by
  unfold ParseCharacterSet
  cases hx : charAt str p with
  | error e => exact coherent_error _ _ _
  | ok x =>
    have hp := charAt_ok_le str p x hx
    by_cases hxc : x ∈ chars
    · simp only [hxc, if_true]
      exact coherent_leaf _ _ _ _ (by omega) (by omega) rfl (fun _ => ⟨rfl, rfl⟩)
    · simp only [hxc, if_false]
      exact coherent_leaf _ _ _ _ (by omega) (by omega) rfl (fun h => by cases h)

theorem ParseCharacterSet_coherent_nulFree (str : List Char) (chars : List Char) (p : Nat)
    (hc : Char.ofNat 0 ∉ chars) : Coherent str.length p (ParseCharacterSet str chars p) := by
  unfold ParseCharacterSet
  cases hx : charAt str p with
  | error e => exact coherent_error _ _ _
  | ok x =>
    have hp := charAt_ok_le str p x hx
    by_cases hxc : x ∈ chars
    · simp only [hxc, if_true]
      have : p ≠ str.length := by
        intro hpe
        rw [hpe, charAt_end] at hx
        injection hx with hx
        exact hc (hx ▸ hxc)
      exact coherent_leaf _ _ _ _ (by omega) (by omega) rfl (fun _ => ⟨rfl, rfl⟩)
    · simp only [hxc, if_false]
      exact coherent_leaf _ _ _ _ (by omega) (by omega) rfl (fun h => by cases h)

theorem ParseString_coherent (str : List Char) (s : List Char) (p : Nat) :
    Coherent str.length p (ParseString str s p) := by
  unfold ParseString substr
  by_cases hp : p ≤ str.length
  · simp only [hp, if_true]
    by_cases ht : (str.drop p).take s.length = s
    · simp only [ht, if_true]
      have hlen : s.length ≤ str.length - p := by
        have := congrArg List.length ht
        simp at this
        omega
      exact coherent_leaf _ _ _ _ (by omega) (by omega) rfl (fun _ => ⟨rfl, rfl⟩)
    · simp only [ht, if_false]
      exact coherent_leaf _ _ _ _ (by omega) (by omega) rfl (fun h => by cases h)
  · simp only [hp, if_false]
    exact coherent_error _ _ _

theorem ParseRegularExpression_coherent (str : List Char) (rgx : RegularExpression)
    (p : Nat) : Coherent str.length p (ParseRegularExpression str rgx p) := by
  unfold ParseRegularExpression
  by_cases hp : p ≤ str.length
  · simp only [hp, if_true]
    cases hm : rgx.search (str.drop p) with
    | none =>
      exact coherent_leaf _ _ _ _ (by omega) (by omega) rfl (fun h => by cases h)
    | some m =>
      have := rgx.within _ m.1 m.2 hm
      simp at this
      exact coherent_leaf _ _ _ _ (by omega) (by omega) rfl (fun _ => ⟨rfl, rfl⟩)
  · simp only [hp, if_false]
    exact coherent_error _ _ _

theorem Coherent.mono {B B1 p : Nat} {o : Outcome} (h : Coherent B p o) (hB : B ≤ B1) :
    Coherent B1 p o := by
  intro r q ho
  obtain ⟨h1, h2, h3, h4⟩ := h r q ho
  exact ⟨h1, by omega, h3, fun n hn hs => by have := h4 n hn hs; omega⟩

theorem coherent_withIndex (B p q : Nat) (r : Result) (index : Int)
    (h : Coherent B p (.ok (r, q))) :
    Coherent B p (.ok ({ r with index := index }, q)) := by
  obtain ⟨h1, h2, h3, h4⟩ := h r q rfl
  intro r1 q1 heq
  injection heq with heq
  injection heq with e1 e2
  subst e1 e2
  refine ⟨h1, h2, h3, ?_⟩
  intro n hn hs
  rcases hn.cases_children with rfl | ⟨c, hc, hnc⟩
  · exact h4 r (.root r) hs
  · exact h4 n (.child n c r hc hnc) hs

theorem choiceLoop_coherent (B : Nat) (rec : Symbol → Nat → Outcome) (p : Nat)
    (hp : p ≤ B) :
    ∀ (alts : List Symbol), (∀ s ∈ alts, Coherent B p (rec s p)) →
      ∀ (index : Int) (longest : Result), longest.success = false →
        (∀ n, Result.InTree n longest → n.success = true → n.start + n.length ≤ B) →
        Coherent B p (choiceLoop rec alts index longest p) := by
  intro alts
  induction alts with
  | nil =>
    intro _ index longest hl ht r q h
    simp only [choiceLoop] at h
    injection h with h
    injection h with e1 e2
    subst e1 e2
    exact ⟨le_refl _, hp, (fun hs => by rw [hl] at hs; cases hs), ht⟩
  | cons a rest ih =>
    intro hrec index longest hl ht
    have ha := hrec a (List.mem_cons_self _ _)
    have hrest : ∀ s ∈ rest, Coherent B p (rec s p) :=
      fun s hs => hrec s (List.mem_cons_of_mem _ hs)
    cases hra : rec a p with
    | error e =>
      intro r q h
      simp [choiceLoop, hra] at h
    | ok v =>
      obtain ⟨r0, q0⟩ := v
      rw [hra] at ha
      have ha1 := coherent_withIndex B p q0 r0 index ha
      cases hs0 : r0.success with
      | true =>
        rw [choiceLoop_cons_success rec a rest index longest p r0 q0 hra hs0]
        exact ha1
      | false =>
        rw [choiceLoop_cons_fail rec a rest index longest p r0 q0 hra hs0]
        apply ih hrest
        · split
          · exact hs0
          · exact hl
        · split
          · exact (ha1 _ _ rfl).2.2.2
          · exact ht

theorem SequenceRun.coherent {B : Nat} {rec : Symbol → Nat → Outcome} {seq : List Symbol}
    {p : Nat} {rs : List Result} {ok : Bool} {q : Nat}
    (h : SequenceRun rec seq p rs ok q) :
    (∀ s ∈ seq, ∀ p1, p1 ≤ B → Coherent B p1 (rec s p1)) → p ≤ B →
    p ≤ q ∧ q ≤ B ∧
    (∀ r ∈ rs, ∀ n, Result.InTree n r → n.success = true → n.start + n.length ≤ B) ∧
    (ok = true → (rs = [] → q = p) ∧ (∀ first, rs.head? = some first → first.start = p) ∧
      ∀ last, rs.getLast? = some last → last.start + last.length = q) := by
  induction h with
  | done p => intro _ hp; simp [hp]
  | failed s rest p r q hs hr =>
    intro hrec hp
    obtain ⟨h1, h2, _, h4⟩ := hrec s (List.mem_cons_self _ _) p hp r q hs
    refine ⟨h1, h2, ?_, fun h => by cases h⟩
    intro x hx
    simp only [List.mem_singleton] at hx
    subst hx
    exact h4
  | step s rest p r p1 rs ok q hs hr _ ih =>
    intro hrec hp
    obtain ⟨h1, h2, h3, h4⟩ := hrec s (List.mem_cons_self _ _) p hp r p1 hs
    obtain ⟨e1, e2⟩ := h3 hr
    obtain ⟨i1, i2, i3, i4⟩ := ih (fun t ht => hrec t (List.mem_cons_of_mem _ ht)) h2
    refine ⟨by omega, i2, ?_, ?_⟩
    · intro x hx
      rcases List.mem_cons.mp hx with rfl | hx
      · exact h4
      · exact i3 x hx
    · intro hok
      obtain ⟨j1, j2, j3⟩ := i4 hok
      refine ⟨(fun h => by cases h), ?_, ?_⟩
      · intro first hf
        simp only [List.head?_cons, Option.some.injEq] at hf
        subst hf
        exact e1
      · intro last hlast
        cases rs with
        | nil =>
          simp only [List.getLast?_singleton, Option.some.injEq] at hlast
          subst hlast
          have := j1 rfl
          omega
        | cons r2 rs2 =>
          rw [List.getLast?_cons_cons] at hlast
          exact j3 last hlast

theorem ParseSequence_coherent (B : Nat) (hB : B < SIZE_MOD) (rec : Symbol → Nat → Outcome)
    (str : List Char) (seq : List Symbol) (p : Nat) (hp : p ≤ B)
    (hrec : ∀ s ∈ seq, ∀ p1, p1 ≤ B → Coherent B p1 (rec s p1)) :
    Coherent B p (ParseSequence rec str seq p) := by
  intro res q h
  unfold ParseSequence at h
  cases hloop : sequenceLoop rec seq [] p with
  | error e => rw [hloop] at h; cases h
  | ok v =>
    obtain ⟨cs, ok, q1⟩ := v
    rw [hloop] at h
    obtain ⟨rs, hcs, hrun⟩ := run_of_sequenceLoop _ _ _ _ _ _ _ hloop
    simp only [List.nil_append] at hcs
    subst hcs
    obtain ⟨h1, h2, h3, h4⟩ := hrun.coherent hrec hp
    cases cs with
    | nil =>
      simp only [List.head?_nil] at h
      injection h with h
      injection h with e1 e2
      subst e1 e2
      refine ⟨h1, h2, ?_, ?_⟩
      · intro hok
        have := (h4 hok).1 rfl
        exact ⟨this, this⟩
      · intro n hn hs
        rcases hn.cases_children with rfl | ⟨c, hc, _⟩
        · have := (h4 hs).1 rfl
          simp at this ⊢
          omega
        · cases hc
    | cons r rest =>
      cases hl : (r :: rest).getLast? with
      | none => simp at hl
      | some back =>
        simp only [List.head?_cons, hl] at h
        injection h with h
        injection h with e1 e2
        subst e1 e2
        have key : ok = true → r.start = p ∧
            q1 = p + spanLength r.start back.start back.length := by
          intro hok
          obtain ⟨_, j2, j3⟩ := h4 hok
          have a1 := j2 r rfl
          have a2 := j3 back hl
          have a3 := spanLength_exact r.start back.start back.length (by omega) (by omega)
          exact ⟨a1, by omega⟩
        refine ⟨h1, h2, key, ?_⟩
        intro n hn hs
        rcases hn.cases_children with rfl | ⟨c, hc, hnc⟩
        · have := key hs
          simp only at this ⊢
          omega
        · exact h3 c hc n hnc hs

theorem Env.longest_tree (env : Env) (B : Nat) (hj : env.longestSuccess = false) :
    ∀ n, Result.InTree n env.longest → n.success = true → n.start + n.length ≤ B := by
  intro n hn hs
  rcases hn.cases_children with rfl | ⟨c, hc, _⟩
  · simp [Env.longest, hj] at hs
  · simp [Env.longest] at hc

theorem ParsePattern_coherent_of (env : Env) (str : List Char) (B : Nat)
    (hB : B < SIZE_MOD) (hj : env.longestSuccess = false) (Q : Pattern → Prop)
    (hQlist : ∀ c, (Q (.Choice c) ∨ Q (.Sequence c)) →
      ∀ s ∈ c, ∀ pat, s = .pattern pat → Q pat)
    (hchar : ∀ c, Q (.Character c) → ∀ p, p ≤ B → Coherent B p (ParseCharacter str c p))
    (hset : ∀ cs, Q (.CharacterSet cs) →
      ∀ p, p ≤ B → Coherent B p (ParseCharacterSet str cs p))
    (hstr : ∀ s p, p ≤ B → Coherent B p (ParseString str s p))
    (hre : ∀ r p, p ≤ B → Coherent B p (ParseRegularExpression str r p))
    (rec : Symbol → Nat → Outcome)
    (hrec : ∀ s, (∀ pat, s = .pattern pat → Q pat) →
      ∀ p, p ≤ B → Coherent B p (rec s p))
    (pat : Pattern) (hQ : Q pat) (p : Nat) (hp : p ≤ B) :
    Coherent B p (ParsePattern rec env str pat p) := by
  cases pat with
  | Character c => exact hchar c hQ p hp
  | CharacterSet cs => exact hset cs hQ p hp
  | String s => exact hstr s p hp
  | RegularExpression r => exact hre r p hp
  | Choice c =>
    simp only [ParsePattern, ParseChoice]
    apply choiceLoop_coherent B rec p hp c
    · intro s hs
      exact hrec s (hQlist c (Or.inl hQ) s hs) p hp
    · simp [Env.longest, hj]
    · exact env.longest_tree B hj
  | Sequence seq =>
    simp only [ParsePattern]
    apply ParseSequence_coherent B hB rec str seq p hp
    intro s hs p1 hp1
    exact hrec s (hQlist seq (Or.inr hQ) s hs) p1 hp1
  | Epsilon =>
    simp only [ParsePattern, ParseEpsilon]
    exact coherent_leaf _ _ _ _ (le_refl _) hp rfl (fun _ => ⟨rfl, rfl⟩)

theorem ParseSymbol_coherent_of (env : Env) (str : List Char) (B : Nat)
    (hB : B < SIZE_MOD) (hj : env.longestSuccess = false) (Q : Pattern → Prop)
    (hQlist : ∀ c, (Q (.Choice c) ∨ Q (.Sequence c)) →
      ∀ s ∈ c, ∀ pat, s = .pattern pat → Q pat)
    (hQr : ∀ f, Q (env.rules f))
    (hchar : ∀ c, Q (.Character c) → ∀ p, p ≤ B → Coherent B p (ParseCharacter str c p))
    (hset : ∀ cs, Q (.CharacterSet cs) →
      ∀ p, p ≤ B → Coherent B p (ParseCharacterSet str cs p))
    (hstr : ∀ s p, p ≤ B → Coherent B p (ParseString str s p))
    (hre : ∀ r p, p ≤ B → Coherent B p (ParseRegularExpression str r p)) :
    ∀ (fuel : Nat) (sym : Symbol), (∀ pat, sym = .pattern pat → Q pat) →
      ∀ p, p ≤ B → Coherent B p (ParseSymbol env str fuel sym p) := by
  intro fuel
  induction fuel with
  | zero =>
    intro sym _ p _
    simp only [ParseSymbol]
    exact coherent_error _ _ _
  | succ fuel ih =>
    intro sym hsym p hp
    cases sym with
    | pattern pat =>
      simp only [ParseSymbol]
      exact ParsePattern_coherent_of env str B hB hj Q hQlist hchar hset hstr hre _ ih pat
        (hsym pat rfl) p hp
    | rule f =>
      simp only [ParseSymbol]
      exact ParsePattern_coherent_of env str B hB hj Q hQlist hchar hset hstr hre _ ih _
        (hQr f) p hp

theorem Symbol.nulFreeList_iff (c : List Symbol) :
    Symbol.nulFreeList c = true ↔ ∀ s ∈ c, s.nulFree = true := by
  induction c with
  | nil => simp [Symbol.nulFreeList]
  | cons a rest ih => simp [Symbol.nulFreeList, ih]

/-- Every match ends within one past the text (the terminator can be matched as a
character), provided a failed Choice does not hand back a stale success flag. -/
theorem ParseSymbol_coherent (env : Env) (str : List Char)
    (hsize : str.length + 1 < SIZE_MOD) (hj : env.longestSuccess = false)
    (fuel : Nat) (sym : Symbol) (p : Nat) (hp : p ≤ str.length + 1) :
    Coherent (str.length + 1) p (ParseSymbol env str fuel sym p) :=
  ParseSymbol_coherent_of env str (str.length + 1) hsize hj (fun _ => True)
    (fun _ _ _ _ _ _ => trivial) (fun _ => trivial)
    (fun c _ p _ => ParseCharacter_coherent str c p)
    (fun cs _ p _ => ParseCharacterSet_coherent str cs p)
    (fun s p _ => (ParseString_coherent str s p).mono (Nat.le_succ _))
    (fun r p _ => (ParseRegularExpression_coherent str r p).mono (Nat.le_succ _))
    fuel sym (fun _ _ => trivial) p hp

/-- In a grammar that cannot match the terminator every match ends within the
text. -/
theorem ParseSymbol_coherent_nulFree (env : Env) (str : List Char)
    (hsize : str.length + 1 < SIZE_MOD) (hj : env.longestSuccess = false)
    (sym : Symbol) (hg : NulFreeGrammar env sym)
    (fuel : Nat) (p : Nat) (hp : p ≤ str.length) :
    Coherent str.length p (ParseSymbol env str fuel sym p) := by
  apply ParseSymbol_coherent_of env str str.length (by omega) hj
    (fun pat => pat.nulFree = true)
  · intro c hc s hs pat hpat
    have hl : Symbol.nulFreeList c = true := by
      rcases hc with h | h <;> simpa [Pattern.nulFree] using h
    have := (Symbol.nulFreeList_iff c).mp hl s hs
    subst hpat
    simpa [Symbol.nulFree] using this
  · exact hg.2
  · intro c hc p _
    apply ParseCharacter_coherent_nulFree
    simpa [Pattern.nulFree] using hc
  · intro cs hc p _
    apply ParseCharacterSet_coherent_nulFree
    simpa [Pattern.nulFree] using hc
  · intro s p _; exact ParseString_coherent str s p
  · intro r p _; exact ParseRegularExpression_coherent str r p
  · intro pat hpat
    have := hg.1
    subst hpat
    simpa [Symbol.nulFree] using this
  · exact hp

/-! ## No abort -/

theorem choiceLoop_safe (B : Nat) (rec : Symbol → Nat → Outcome) (p : Nat) (hp : p ≤ B) :
    ∀ (alts : List Symbol), (∀ s ∈ alts, Safe B (rec s p)) →
      ∀ (index : Int) (longest : Result), Safe B (choiceLoop rec alts index longest p) := by
  intro alts
  induction alts with
  | nil =>
    intro _ index longest
    exact Or.inr ⟨longest, p, rfl, hp⟩
  | cons a rest ih =>
    intro hrec index longest
    have hrest : ∀ s ∈ rest, Safe B (rec s p) :=
      fun s hs => hrec s (List.mem_cons_of_mem _ hs)
    rcases hrec a (List.mem_cons_self _ _) with he | ⟨r0, q0, hra, hq0⟩
    · left; simp [choiceLoop, he]
    · cases hs0 : r0.success with
      | true =>
        rw [choiceLoop_cons_success rec a rest index longest p r0 q0 hra hs0]
        exact Or.inr ⟨_, q0, rfl, hq0⟩
      | false =>
        rw [choiceLoop_cons_fail rec a rest index longest p r0 q0 hra hs0]
        exact ih hrest _ _

theorem sequenceLoop_safe (B : Nat) (rec : Symbol → Nat → Outcome) :
    ∀ (seq : List Symbol), (∀ s ∈ seq, ∀ p, p ≤ B → Safe B (rec s p)) →
      ∀ (acc : List Result) (p : Nat), p ≤ B →
        sequenceLoop rec seq acc p = .error .outOfFuel ∨
        ∃ cs ok q, sequenceLoop rec seq acc p = .ok (cs, ok, q) ∧ q ≤ B := by
  intro seq
  induction seq with
  | nil =>
    intro _ acc p hp
    exact Or.inr ⟨acc, true, p, rfl, hp⟩
  | cons a rest ih =>
    intro hrec acc p hp
    have hrest : ∀ s ∈ rest, ∀ p, p ≤ B → Safe B (rec s p) :=
      fun s hs => hrec s (List.mem_cons_of_mem _ hs)
    rcases hrec a (List.mem_cons_self _ _) p hp with he | ⟨r0, q0, hra, hq0⟩
    · left; simp [sequenceLoop, he]
    · cases hs0 : r0.success with
      | true =>
        have : sequenceLoop rec (a :: rest) acc p
            = sequenceLoop rec rest (acc ++ [r0]) q0 := by
          simp [sequenceLoop, hra, hs0]
        rw [this]
        exact ih hrest _ q0 hq0
      | false =>
        right
        exact ⟨acc ++ [r0], false, q0, by simp [sequenceLoop, hra, hs0], hq0⟩

theorem ParseSequence_safe (B : Nat) (rec : Symbol → Nat → Outcome) (str : List Char)
    (seq : List Symbol) (hrec : ∀ s ∈ seq, ∀ p, p ≤ B → Safe B (rec s p))
    (p : Nat) (hp : p ≤ B) : Safe B (ParseSequence rec str seq p) := by
  unfold ParseSequence
  rcases sequenceLoop_safe B rec seq hrec [] p hp with he | ⟨cs, ok, q, h, hq⟩
  · left; rw [he]
  · right
    rw [h]
    cases cs with
    | nil => exact ⟨_, q, rfl, hq⟩
    | cons r rest =>
      cases hl : (r :: rest).getLast? with
      | none => simp at hl
      | some back => exact ⟨_, q, rfl, hq⟩

theorem ParseCharacter_safe (str : List Char) (c : Char) (hc : c ≠ Char.ofNat 0)
    (p : Nat) (hp : p ≤ str.length) : Safe str.length (ParseCharacter str c p) := by
  right
  unfold ParseCharacter
  by_cases hlt : p < str.length
  · simp only [charAt, hlt, dif_pos]
    split
    · exact ⟨_, _, rfl, by omega⟩
    · exact ⟨_, _, rfl, hp⟩
  · have hpe : p = str.length := by omega
    subst hpe
    rw [charAt_end]
    simp only [hc.symm, if_false]
    exact ⟨_, _, rfl, le_refl _⟩

theorem ParseCharacterSet_safe (str : List Char) (chars : List Char)
    (hc : Char.ofNat 0 ∉ chars) (p : Nat) (hp : p ≤ str.length) :
    Safe str.length (ParseCharacterSet str chars p) := by
  right
  unfold ParseCharacterSet
  by_cases hlt : p < str.length
  · simp only [charAt, hlt, dif_pos]
    split
    · exact ⟨_, _, rfl, by omega⟩
    · exact ⟨_, _, rfl, hp⟩
  · have hpe : p = str.length := by omega
    subst hpe
    rw [charAt_end]
    simp only [hc, if_false]
    exact ⟨_, _, rfl, le_refl _⟩

theorem ParseString_safe (str : List Char) (s : List Char) (p : Nat)
    (hp : p ≤ str.length) : Safe str.length (ParseString str s p) := by
  right
  unfold ParseString substr
  simp only [hp, if_true]
  by_cases ht : (str.drop p).take s.length = s
  · simp only [ht, if_true]
    have hlen : s.length ≤ str.length - p := by
      have := congrArg List.length ht
      simp at this
      omega
    exact ⟨_, _, rfl, by omega⟩
  · simp only [ht, if_false]
    exact ⟨_, _, rfl, hp⟩

theorem ParseRegularExpression_safe (str : List Char) (rgx : RegularExpression) (p : Nat)
    (hp : p ≤ str.length) : Safe str.length (ParseRegularExpression str rgx p) := by
  right
  unfold ParseRegularExpression
  simp only [hp, if_true]
  cases hm : rgx.search (str.drop p) with
  | none => exact ⟨_, _, rfl, hp⟩
  | some m =>
    have := rgx.within _ m.1 m.2 hm
    simp at this
    exact ⟨_, _, rfl, by omega⟩

theorem ParsePattern_safe (env : Env) (str : List Char) (rec : Symbol → Nat → Outcome)
    (hrec : ∀ s, s.nulFree = true → ∀ p, p ≤ str.length → Safe str.length (rec s p))
    (pat : Pattern) (hpat : pat.nulFree = true) (p : Nat) (hp : p ≤ str.length) :
    Safe str.length (ParsePattern rec env str pat p) := by
  cases pat with
  | Character c =>
    exact ParseCharacter_safe str c (by simpa [Pattern.nulFree] using hpat) p hp
  | CharacterSet cs =>
    exact ParseCharacterSet_safe str cs (by simpa [Pattern.nulFree] using hpat) p hp
  | String s => exact ParseString_safe str s p hp
  | RegularExpression r => exact ParseRegularExpression_safe str r p hp
  | Choice c =>
    have hl : Symbol.nulFreeList c = true := by simpa [Pattern.nulFree] using hpat
    simp only [ParsePattern, ParseChoice]
    exact choiceLoop_safe _ rec p hp c
      (fun s hs => hrec s ((Symbol.nulFreeList_iff c).mp hl s hs) p hp) _ _
  | Sequence seq =>
    have hl : Symbol.nulFreeList seq = true := by simpa [Pattern.nulFree] using hpat
    simp only [ParsePattern]
    exact ParseSequence_safe _ rec str seq
      (fun s hs => hrec s ((Symbol.nulFreeList_iff seq).mp hl s hs)) p hp
  | Epsilon => exact Or.inr ⟨_, p, rfl, hp⟩

theorem ParseSymbol_safe (env : Env) (str : List Char)
    (hrules : ∀ f, (env.rules f).nulFree = true) :
    ∀ (fuel : Nat) (sym : Symbol), sym.nulFree = true → ∀ p, p ≤ str.length →
      Safe str.length (ParseSymbol env str fuel sym p) := by
  intro fuel
  induction fuel with
  | zero => intro sym _ p _; exact Or.inl rfl
  | succ fuel ih =>
    intro sym hsym p hp
    cases sym with
    | pattern pat =>
      simp only [ParseSymbol]
      exact ParsePattern_safe env str _ ih pat (by simpa [Symbol.nulFree] using hsym) p hp
    | rule f =>
      simp only [ParseSymbol]
      exact ParsePattern_safe env str _ ih _ (hrules f) p hp

/-! ## Fuel -/

theorem choiceLoop_fuel (rec rec1 : Symbol → Nat → Outcome)
    (hrec : ∀ s p, rec s p ≠ .error .outOfFuel → rec1 s p = rec s p) :
    ∀ (alts : List Symbol) (index : Int) (longest : Result) (p : Nat),
      choiceLoop rec alts index longest p ≠ .error .outOfFuel →
      choiceLoop rec1 alts index longest p = choiceLoop rec alts index longest p := by
  intro alts
  induction alts with
  | nil => intro index longest p _; rfl
  | cons a rest ih =>
    intro index longest p h
    have ha : rec a p ≠ .error .outOfFuel := by
      intro he; apply h; simp [choiceLoop, he]
    have h1 := hrec a p ha
    cases hra : rec a p with
    | error e => simp [choiceLoop, h1, hra]
    | ok v =>
      obtain ⟨r0, q0⟩ := v
      rw [hra] at h1
      cases hs0 : r0.success with
      | true =>
        rw [choiceLoop_cons_success rec a rest index longest p r0 q0 hra hs0,
          choiceLoop_cons_success rec1 a rest index longest p r0 q0 h1 hs0]
      | false =>
        rw [choiceLoop_cons_fail rec a rest index longest p r0 q0 hra hs0] at h ⊢
        rw [choiceLoop_cons_fail rec1 a rest index longest p r0 q0 h1 hs0]
        exact ih _ _ _ h

theorem sequenceLoop_fuel (rec rec1 : Symbol → Nat → Outcome)
    (hrec : ∀ s p, rec s p ≠ .error .outOfFuel → rec1 s p = rec s p) :
    ∀ (seq : List Symbol) (acc : List Result) (p : Nat),
      sequenceLoop rec seq acc p ≠ .error .outOfFuel →
      sequenceLoop rec1 seq acc p = sequenceLoop rec seq acc p := by
  intro seq
  induction seq with
  | nil => intro acc p _; rfl
  | cons a rest ih =>
    intro acc p h
    have ha : rec a p ≠ .error .outOfFuel := by
      intro he; apply h; simp [sequenceLoop, he]
    have h1 := hrec a p ha
    cases hra : rec a p with
    | error e => simp [sequenceLoop, h1, hra]
    | ok v =>
      obtain ⟨r0, q0⟩ := v
      rw [hra] at h1
      cases hs0 : r0.success with
      | true =>
        have e0 : sequenceLoop rec (a :: rest) acc p
            = sequenceLoop rec rest (acc ++ [r0]) q0 := by
          simp [sequenceLoop, hra, hs0]
        have e1 : sequenceLoop rec1 (a :: rest) acc p
            = sequenceLoop rec1 rest (acc ++ [r0]) q0 := by
          simp [sequenceLoop, h1, hs0]
        rw [e0] at h ⊢
        rw [e1]
        exact ih _ _ h
      | false => simp [sequenceLoop, hra, h1, hs0]

theorem ParsePattern_fuel (env : Env) (str : List Char)
    (rec rec1 : Symbol → Nat → Outcome)
    (hrec : ∀ s p, rec s p ≠ .error .outOfFuel → rec1 s p = rec s p)
    (pat : Pattern) (p : Nat)
    (h : ParsePattern rec env str pat p ≠ .error .outOfFuel) :
    ParsePattern rec1 env str pat p = ParsePattern rec env str pat p := by
  cases pat with
  | Choice c =>
    simp only [ParsePattern, ParseChoice] at h ⊢
    exact choiceLoop_fuel rec rec1 hrec c _ _ p h
  | Sequence seq =>
    simp only [ParsePattern, ParseSequence] at h ⊢
    have hl : sequenceLoop rec seq [] p ≠ .error .outOfFuel := by
      intro he; apply h; rw [he]
    rw [sequenceLoop_fuel rec rec1 hrec seq [] p hl]
  | _ => rfl

/-- More fuel does not change what a call that finished within its fuel
produced. -/
theorem ParseSymbol_fuel_succ (env : Env) (str : List Char) :
    ∀ (fuel : Nat) (sym : Symbol) (p : Nat),
      ParseSymbol env str fuel sym p ≠ .error .outOfFuel →
      ParseSymbol env str (fuel + 1) sym p = ParseSymbol env str fuel sym p := by
  intro fuel
  induction fuel with
  | zero => intro sym p h; exact absurd rfl h
  | succ fuel ih =>
    intro sym p h
    cases sym with
    | pattern pat =>
      simp only [ParseSymbol] at h ⊢
      exact ParsePattern_fuel env str _ _ ih pat p h
    | rule f =>
      simp only [ParseSymbol] at h ⊢
      exact ParsePattern_fuel env str _ _ ih _ p h

theorem ParseSymbol_fuel_le (env : Env) (str : List Char) (fuel : Nat) (sym : Symbol)
    (p : Nat) (h : ParseSymbol env str fuel sym p ≠ .error .outOfFuel) :
    ∀ more, fuel ≤ more → ParseSymbol env str more sym p = ParseSymbol env str fuel sym p := by
  intro more hle
  induction more, hle using Nat.le_induction with
  | base => rfl
  | succ n _ ih =>
    rw [ParseSymbol_fuel_succ env str n sym p (by rw [ih]; exact h), ih]

theorem Parse_fuel_le (env : Env) (str : List Char) (fuel : Nat) (sym : Symbol)
    (h : Parse env fuel str sym ≠ .error .outOfFuel) :
    ∀ more, fuel ≤ more → Parse env more str sym = Parse env fuel str sym := by
  intro more hle
  have h0 : ParseSymbol env str fuel sym 0 ≠ .error .outOfFuel := by
    intro he; apply h; simp [Parse, he]
  simp only [Parse, ParseSymbol_fuel_le env str fuel sym 0 h0 more hle]


theorem choiceLoop_failure_cursor (rec : Symbol → Nat → Outcome) (p : Nat) :
    ∀ (alts : List Symbol) (index : Int) (longest : Result) (r : Result) (q : Nat),
      longest.success = false →
      choiceLoop rec alts index longest p = .ok (r, q) → r.success = false → q = p := by
  intro alts
  induction alts with
  | nil =>
    intro index longest r q _ h _
    simp only [choiceLoop] at h
    injection h with h
    injection h with _ e2
    exact e2.symm
  | cons a rest ih =>
    intro index longest r q hl h hr
    cases hra : rec a p with
    | error e => simp [choiceLoop, hra] at h
    | ok v =>
      obtain ⟨r0, q0⟩ := v
      cases hs0 : r0.success with
      | true =>
        rw [choiceLoop_cons_success rec a rest index longest p r0 q0 hra hs0] at h
        injection h with h
        injection h with e1 _
        rw [← e1] at hr
        simp [hs0] at hr
      | false =>
        rw [choiceLoop_cons_fail rec a rest index longest p r0 q0 hra hs0] at h
        refine ih _ _ r q ?_ h hr
        split
        · exact hs0
        · exact hl

/-- When the storage of `longest` does not hold a stale success flag, a Choice
leaves the cursor at the end of the match it returns if that is a success, and
where it started if it is a failure. -/
theorem choice_backtracking_of_clean_longest (env : Env) (str : List Char)
    (hsize : str.length + 1 < SIZE_MOD) (hj : env.longestSuccess = false)
    (fuel : Nat) (c : List Symbol) (p : Nat) (hp : p ≤ str.length + 1)
    (r : Result) (q : Nat)
    (h : ParseSymbol env str fuel (.pattern (.Choice c)) p = .ok (r, q)) :
    (r.success = true → q = r.start + r.length) ∧ (r.success = false → q = p) := by
  constructor
  · intro hs
    obtain ⟨_, _, h3, _⟩ := ParseSymbol_coherent env str hsize hj fuel _ p hp r q h
    obtain ⟨e1, e2⟩ := h3 hs
    omega
  · intro hs
    cases fuel with
    | zero => simp [ParseSymbol] at h
    | succ fuel =>
      simp only [ParseSymbol, ParsePattern, ParseChoice] at h
      exact choiceLoop_failure_cursor _ p c 0 env.longest r q
        (by simp [Env.longest, hj]) h hs
/-- C7 (amended): in a grammar whose Character and CharacterSet terminals cannot
match the string terminator (the start symbol and every rule are `nulFree`), a
match never aborts: from every cursor inside the text, whatever the fuel, the
call is either still running when the fuel ends or it returns a Result and
leaves the cursor within the text, so no terminal ever reads beyond the text;
`Parse` never raises; and if `Parse` finishes within some fuel then it returns
one and the same Result for that and every larger fuel. -/
theorem no_abort_nul_free (env : Env) (str : List Char) (sym : Symbol)
    (hg : NulFreeGrammar env sym) :
    (∀ fuel p, p ≤ str.length → ParseSymbol env str fuel sym p = .error .outOfFuel ∨
      ∃ r q, ParseSymbol env str fuel sym p = .ok (r, q) ∧ q ≤ str.length) ∧
    (∀ fuel, Parse env fuel str sym = .error .outOfFuel ∨
      ∃ r, Parse env fuel str sym = .ok r) ∧
    ((∃ fuel, Parse env fuel str sym ≠ .error .outOfFuel) →
      ∃ fuel r, ∀ more, fuel ≤ more → Parse env more str sym = .ok r) := by
  have h1 : ∀ fuel p, p ≤ str.length → Safe str.length (ParseSymbol env str fuel sym p) :=
    fun fuel p hp => ParseSymbol_safe env str hg.2 fuel sym hg.1 p hp
  have h2 : ∀ fuel, Parse env fuel str sym = .error .outOfFuel ∨
      ∃ r, Parse env fuel str sym = .ok r := by
    intro fuel
    rcases h1 fuel 0 (Nat.zero_le _) with he | ⟨r, q, hr, _⟩
    · left; simp [Parse, he]
    · right; exact ⟨r, by simp [Parse, hr]⟩
  refine ⟨h1, h2, ?_⟩
  rintro ⟨fuel, hf⟩
  rcases h2 fuel with he | ⟨r, hr⟩
  · exact absurd he hf
  · exact ⟨fuel, r, fun more hle => by rw [Parse_fuel_le env str fuel sym hf more hle, hr]⟩

/-! ## The claims at concrete inputs -/

/-- Witness of C1: on the text `b` the Choice `a / b / c` returns the Result of
its alternative 1. -/
theorem choice_first_success_witness :
    ParseSymbol zeroedEnv ['b'] 2
        (.pattern (.Choice [Symbol.ofChar 'a', Symbol.ofChar 'b', Symbol.ofChar 'c'])) 0
      = .ok (⟨true, 1, ['b'], 0, 1, []⟩, 1) :=
  (choice_first_success zeroedEnv ['b'] 1
    [Symbol.ofChar 'a', Symbol.ofChar 'b', Symbol.ofChar 'c'] 0 1 (Symbol.ofChar 'b')
    ⟨true, 0, ['b'], 0, 1, []⟩ 1 rfl
    (fun j s hj hs => by
      have hj0 : j = 0 := by omega
      subst hj0
      injection hs with hs
      subst hs
      exact ⟨⟨false, 0, ['b'], 0, 0, []⟩, 0, rfl, rfl⟩)
    rfl rfl).1

/-- C2 (the code at the failing input): on the text `c` both alternatives of the
Choice `a / b` fail with length 0, and the Choice returns the never assigned
local `longest`, which is not the failing Result of alternative 0 (its `str`
is empty); matched from cursor 1 of the text `xc` it again returns `longest`,
whose `start` is whatever the storage held, where the failing Result of
alternative 0 starts at 1; and where the stale `length` of `longest` is 1, an
alternative that failed after matching one character is not returned either. -/
theorem choice_all_fail_returns_unassigned_longest (env : Env) :
    ParseSymbol env ['c'] 1 (Symbol.ofChar 'a') 0 = .ok (⟨false, 0, ['c'], 0, 0, []⟩, 0) ∧
    ParseSymbol env ['c'] 1 (Symbol.ofChar 'b') 0 = .ok (⟨false, 0, ['c'], 0, 0, []⟩, 0) ∧
    ParseSymbol env ['c'] 2
        (.pattern (.Choice [Symbol.ofChar 'a', Symbol.ofChar 'b'])) 0
      = .ok (env.longest, 0) ∧
    env.longest.str ≠ ['c'] ∧
    ParseSymbol env ['x', 'c'] 1 (Symbol.ofChar 'a') 1
      = .ok (⟨false, 0, ['x', 'c'], 1, 0, []⟩, 1) ∧
    ParseSymbol env ['x', 'c'] 2
        (.pattern (.Choice [Symbol.ofChar 'a', Symbol.ofChar 'b'])) 1
      = .ok (env.longest, 1) ∧
    ParseSymbol staleEnv ['a', 'b'] 3
        (.pattern (.Choice [.pattern (.Sequence [Symbol.ofChar 'a', Symbol.ofChar 'x']),
          Symbol.ofChar 'b'])) 0
      = .ok (staleEnv.longest, 0) := by
  refine ⟨rfl, rfl, ?_, ?_, rfl, ?_, rfl⟩
  · simp [ParseSymbol, ParsePattern, ParseChoice, choiceLoop, Symbol.ofChar,
      ParseCharacter, charAt]
  · simp [Env.longest]
  · simp [ParseSymbol, ParsePattern, ParseChoice, choiceLoop, Symbol.ofChar,
      ParseCharacter, charAt]

/-- C3 (the code at the failing input): on the text `b` the only alternative of
the Choice `a` fails, the Choice returns `longest` with its stale success flag
set, and the cursor it leaves (0) is not `start + length` of that Result. -/
theorem choice_stale_success_cursor :
    ParseSymbol staleEnv ['b'] 2 (.pattern (.Choice [Symbol.ofChar 'a'])) 0
      = .ok (⟨true, 0, [], 1, 1, []⟩, 0) ∧
    (⟨true, 0, [], 1, 1, []⟩ : Result).success = true ∧
    (0 : Nat) ≠ (⟨true, 0, [], 1, 1, []⟩ : Result).start
      + (⟨true, 0, [], 1, 1, []⟩ : Result).length :=
  ⟨rfl, rfl, by decide⟩

/-- Witness of C4: on the text `ac` the Sequence `a b` attempts both members and
fails at the second. -/
theorem sequence_success_and_children_witness :
    ∃ res, ParseSymbol zeroedEnv ['a', 'c'] 2
        (.pattern (.Sequence [Symbol.ofChar 'a', Symbol.ofChar 'b'])) 0 = .ok (res, 1) ∧
      res.children = [⟨true, 0, ['a', 'c'], 0, 1, []⟩, ⟨false, 0, ['a', 'c'], 1, 0, []⟩] ∧
      res.success = false ∧
      (res.success = true ↔
        [(⟨true, 0, ['a', 'c'], 0, 1, []⟩ : Result), ⟨false, 0, ['a', 'c'], 1, 0, []⟩].length
            = [Symbol.ofChar 'a', Symbol.ofChar 'b'].length ∧
          ∀ r ∈ [(⟨true, 0, ['a', 'c'], 0, 1, []⟩ : Result), ⟨false, 0, ['a', 'c'], 1, 0, []⟩],
            r.success = true) ∧
      (res.success = false → ∃ front last,
        [(⟨true, 0, ['a', 'c'], 0, 1, []⟩ : Result), ⟨false, 0, ['a', 'c'], 1, 0, []⟩]
            = front ++ [last] ∧
          front.length < [Symbol.ofChar 'a', Symbol.ofChar 'b'].length ∧
          last.success = false ∧ ∀ r ∈ front, r.success = true) :=
  (sequence_success_and_children zeroedEnv ['a', 'c'] 1
    [Symbol.ofChar 'a', Symbol.ofChar 'b'] 0).1 _ false 1
    (.step _ _ 0 ⟨true, 0, ['a', 'c'], 0, 1, []⟩ 1 _ false 1 rfl rfl
      (.failed _ _ 1 ⟨false, 0, ['a', 'c'], 1, 0, []⟩ 1 rfl rfl))

/-- C5 (the code at the failing input): the Sequence `a (b / c)` is matched from
cursor 1 of the text `xa` on a host whose storage for `longest` is zeroed.  The
character `a` succeeds with span `(1, 1)`; the Choice fails at both
alternatives with length 0 and hands back the never assigned `longest`, whose
`start` is 0; the Sequence computes `0 + 0 - 1` in `size_t`, so its Result has
`start = 1` and `length = 2 ^ 64 - 1`, and `start + length` is not the last
child's `start + length`.  The same Result is the second child of the
top-level match of `x (a (b / c))` on that text. -/
theorem sequence_span_wraps_after_failed_choice :
    ParseSymbol zeroedEnv ['x', 'a'] 3
        (.pattern (.Sequence [Symbol.ofChar 'a',
          .pattern (.Choice [Symbol.ofChar 'b', Symbol.ofChar 'c'])])) 1
      = .ok (⟨false, 0, ['x', 'a'], 1, 18446744073709551615,
          [⟨true, 0, ['x', 'a'], 1, 1, []⟩, ⟨false, 0, [], 0, 0, []⟩]⟩, 2) ∧
    ParseSymbol zeroedEnv ['x', 'a'] 2
        (.pattern (.Choice [Symbol.ofChar 'b', Symbol.ofChar 'c'])) 2
      = .ok (⟨false, 0, [], 0, 0, []⟩, 2) ∧
    (⟨false, 0, ['x', 'a'], 1, 18446744073709551615,
        [⟨true, 0, ['x', 'a'], 1, 1, []⟩, ⟨false, 0, [], 0, 0, []⟩]⟩ : Result).start
      + (⟨false, 0, ['x', 'a'], 1, 18446744073709551615,
        [⟨true, 0, ['x', 'a'], 1, 1, []⟩, ⟨false, 0, [], 0, 0, []⟩]⟩ : Result).length
      ≠ (⟨false, 0, [], 0, 0, []⟩ : Result).start
        + (⟨false, 0, [], 0, 0, []⟩ : Result).length ∧
    Parse zeroedEnv 4 ['x', 'a']
        (.pattern (.Sequence [Symbol.ofChar 'x',
          .pattern (.Sequence [Symbol.ofChar 'a',
            .pattern (.Choice [Symbol.ofChar 'b', Symbol.ofChar 'c'])])]))
      = .ok ⟨false, 0, ['x', 'a'], 0, 0,
          [⟨true, 0, ['x', 'a'], 0, 1, []⟩,
           ⟨false, 0, ['x', 'a'], 1, 18446744073709551615,
            [⟨true, 0, ['x', 'a'], 1, 1, []⟩, ⟨false, 0, [], 0, 0, []⟩]⟩]⟩ :=
  ⟨rfl, rfl, by decide, rfl⟩

/-- C6 (as stated, refuted): on the text `1` the Sequence `1 '\0'`, the shape of
`json::grammar::Start`, matches the digit and then the string terminator read at
`str[str.size()]`; the successful Result spans `start + length = 2`, one more
than the length of the text. -/
theorem span_bounds_counterexample :
    Parse zeroedEnv 2 ['1']
        (.pattern (.Sequence [Symbol.ofChar '1', Symbol.ofChar (Char.ofNat 0)]))
      = .ok ⟨true, 0, ['1'], 0, 2,
          [⟨true, 0, ['1'], 0, 1, []⟩, ⟨true, 0, ['1'], 1, 1, []⟩]⟩ ∧
    ¬ ((⟨true, 0, ['1'], 0, 2,
          [⟨true, 0, ['1'], 0, 1, []⟩, ⟨true, 0, ['1'], 1, 1, []⟩]⟩ : Result).start
        + (⟨true, 0, ['1'], 0, 2,
          [⟨true, 0, ['1'], 0, 1, []⟩, ⟨true, 0, ['1'], 1, 1, []⟩]⟩ : Result).length
        ≤ ['1'].length) :=
  ⟨rfl, by decide⟩

/-- C6 (amended): for every text (of a size a `std::string` can have), every
start symbol and every Result `Parse` returns, when the storage of a Choice's
`longest` holds no stale success flag, every successful Result of the tree has
`0 ≤ start` and `start + length ≤ length(text) + 1`, the one extra unit
being the string terminator matched as a character; and
`start + length ≤ length(text)` when no Character or CharacterSet terminal of
the grammar can match the terminator. -/
theorem span_bounds (env : Env) (str : List Char) (hsize : str.length + 1 < SIZE_MOD)
    (hj : env.longestSuccess = false) (fuel : Nat) (sym : Symbol) (res : Result)
    (h : Parse env fuel str sym = .ok res) (n : Result) (hn : Result.InTree n res)
    (hs : n.success = true) :
    0 ≤ n.start ∧ n.start + n.length ≤ str.length + 1 ∧
      (NulFreeGrammar env sym → n.start + n.length ≤ str.length) := by
  unfold Parse at h
  cases hps : ParseSymbol env str fuel sym 0 with
  | error e => rw [hps] at h; cases h
  | ok v =>
    obtain ⟨r, q⟩ := v
    rw [hps] at h
    injection h with h
    subst h
    refine ⟨Nat.zero_le _, ?_, ?_⟩
    · exact (ParseSymbol_coherent env str hsize hj fuel sym 0 (Nat.zero_le _) r q hps).2.2.2
        n hn hs
    · intro hg
      exact (ParseSymbol_coherent_nulFree env str hsize hj sym hg fuel 0 (Nat.zero_le _)
        r q hps).2.2.2 n hn hs

/-- Witness of C6: the Sequence `a b` on the text `ab`, at its second child. -/
theorem span_bounds_witness :
    0 ≤ (⟨true, 0, ['a', 'b'], 1, 1, []⟩ : Result).start ∧
    (⟨true, 0, ['a', 'b'], 1, 1, []⟩ : Result).start
        + (⟨true, 0, ['a', 'b'], 1, 1, []⟩ : Result).length ≤ ['a', 'b'].length + 1 ∧
    (NulFreeGrammar zeroedEnv (.pattern (.Sequence [Symbol.ofChar 'a', Symbol.ofChar 'b'])) →
      (⟨true, 0, ['a', 'b'], 1, 1, []⟩ : Result).start
        + (⟨true, 0, ['a', 'b'], 1, 1, []⟩ : Result).length ≤ ['a', 'b'].length) :=
  span_bounds zeroedEnv ['a', 'b'] (by decide) rfl 2
    (.pattern (.Sequence [Symbol.ofChar 'a', Symbol.ofChar 'b']))
    ⟨true, 0, ['a', 'b'], 0, 2,
      [⟨true, 0, ['a', 'b'], 0, 1, []⟩, ⟨true, 0, ['a', 'b'], 1, 1, []⟩]⟩
    rfl ⟨true, 0, ['a', 'b'], 1, 1, []⟩
    (.child _ ⟨true, 0, ['a', 'b'], 1, 1, []⟩ _ (by simp) (.root _)) rfl

/-- C7 (as stated, refuted): on the empty text the Sequence `'\0' "a"` matches
the string terminator, which moves the cursor to 1, beyond the text, and the
literal then calls `substr(1, 1)`, which throws `std::out_of_range`; with the
Character `a` as second member the engine reads `str[1]`, outside the text.
Neither match returns a Result, though both terminate. -/
theorem no_abort_counterexample :
    Parse zeroedEnv 2 []
        (.pattern (.Sequence [Symbol.ofChar (Char.ofNat 0), Symbol.ofString ['a']]))
      = .error .outOfRange ∧
    Parse zeroedEnv 2 []
        (.pattern (.Sequence [Symbol.ofChar (Char.ofNat 0), Symbol.ofChar 'a']))
      = .error .undefinedRead ∧
    ParseSymbol zeroedEnv [] 1 (Symbol.ofChar (Char.ofNat 0)) 0
      = .ok (⟨true, 0, [], 0, 1, []⟩, 1) :=
  ⟨rfl, rfl, rfl⟩

/-- Witness of C7: the Choice `a / b` is free of terminator matches; on the
text `b`, finishing within fuel 2, it returns a Result for every larger fuel. -/
theorem no_abort_nul_free_witness :
    (∀ fuel p, p ≤ ['b'].length →
      ParseSymbol zeroedEnv ['b'] fuel
          (.pattern (.Choice [Symbol.ofChar 'a', Symbol.ofChar 'b'])) p = .error .outOfFuel ∨
      ∃ r q, ParseSymbol zeroedEnv ['b'] fuel
          (.pattern (.Choice [Symbol.ofChar 'a', Symbol.ofChar 'b'])) p = .ok (r, q) ∧
        q ≤ ['b'].length) ∧
    (∀ fuel, Parse zeroedEnv fuel ['b']
          (.pattern (.Choice [Symbol.ofChar 'a', Symbol.ofChar 'b'])) = .error .outOfFuel ∨
      ∃ r, Parse zeroedEnv fuel ['b']
          (.pattern (.Choice [Symbol.ofChar 'a', Symbol.ofChar 'b'])) = .ok r) ∧
    ((∃ fuel, Parse zeroedEnv fuel ['b']
          (.pattern (.Choice [Symbol.ofChar 'a', Symbol.ofChar 'b'])) ≠ .error .outOfFuel) →
      ∃ fuel r, ∀ more, fuel ≤ more → Parse zeroedEnv more ['b']
          (.pattern (.Choice [Symbol.ofChar 'a', Symbol.ofChar 'b'])) = .ok r) :=
  no_abort_nul_free zeroedEnv ['b']
    (.pattern (.Choice [Symbol.ofChar 'a', Symbol.ofChar 'b'])) ⟨by decide, fun _ => rfl⟩

/-- C8 (the code at the failing input): with a stale success flag in the storage
of `longest`, the Choice without alternatives on the empty text, and the Choice
`a` on the text `b`, whose only alternative fails with length 0, both return a
Result with `success = true` although no alternative succeeded. -/
theorem choice_success_flag_unassigned :
    ParseSymbol staleEnv [] 1 (.pattern (.Choice [])) 0
      = .ok (⟨true, 0, [], 1, 1, []⟩, 0) ∧
    ParseSymbol staleEnv ['b'] 1 (Symbol.ofChar 'a') 0
      = .ok (⟨false, 0, ['b'], 0, 0, []⟩, 0) ∧
    (∃ r q, ParseSymbol staleEnv ['b'] 2 (.pattern (.Choice [Symbol.ofChar 'a'])) 0
      = .ok (r, q) ∧ r.success = true) :=
  ⟨rfl, rfl, ⟨_, _, rfl, rfl⟩⟩

/-- Witness of C9: the Sequence `a b` on the text `ac` from cursor 0 fails and
leaves the cursor at 1. -/
theorem sequence_failure_keeps_cursor_witness :
    ∃ res, ParseSymbol zeroedEnv ['a', 'c'] 2
        (.pattern (.Sequence ([Symbol.ofChar 'a'] ++ Symbol.ofChar 'b' :: []))) 0
        = .ok (res, 1) ∧ res.success = false ∧
      res.children = [⟨true, 0, ['a', 'c'], 0, 1, []⟩] ++ [⟨false, 0, ['a', 'c'], 1, 0, []⟩] :=
  sequence_failure_keeps_cursor zeroedEnv ['a', 'c'] 1 [Symbol.ofChar 'a']
    (Symbol.ofChar 'b') [] 0 [⟨true, 0, ['a', 'c'], 0, 1, []⟩] 1
    ⟨false, 0, ['a', 'c'], 1, 0, []⟩ 1
    (.step _ _ 0 ⟨true, 0, ['a', 'c'], 0, 1, []⟩ 1 _ true 1 rfl rfl (.done 1)) rfl rfl

/-- C10: symbol resolution is transparent.  Matching a rule reference yields the
same Result and the same final cursor (or the same fault) as matching, from the
same cursor, the inline Pattern the rule returns; so does the top-level
`Parse`. -/
theorem symbol_resolution_transparent (env : Env) (str : List Char) (fuel : Nat)
    (f : Nat) (p : Nat) :
    ParseSymbol env str fuel (.rule f) p
        = ParseSymbol env str fuel (.pattern (env.rules f)) p ∧
      Parse env fuel str (.rule f) = Parse env fuel str (.pattern (env.rules f)) := by
  cases fuel with
  | zero => exact ⟨rfl, rfl⟩
  | succ fuel => exact ⟨rfl, rfl⟩


/-! ## Terminals -/

/-- C11: the Character terminal.  At a cursor `p` inside the text, matching the
character `c` succeeds iff `text[p] = c`; on success the Result is
`{true, 0, text, p, 1}` without children and the cursor becomes `p + 1`; on
failure the Result is `{false, 0, text, p, 0}` and the cursor stays `p`. -/
theorem character_terminal (env : Env) (str : List Char) (fuel : Nat) (c : Char)
    (p : Nat) (hp : p < str.length) :
    (str[p] = c →
      ParseSymbol env str (fuel + 1) (Symbol.ofChar c) p
        = .ok (⟨true, 0, str, p, 1, []⟩, p + 1)) ∧
    (str[p] ≠ c →
      ParseSymbol env str (fuel + 1) (Symbol.ofChar c) p
        = .ok (⟨false, 0, str, p, 0, []⟩, p)) ∧
    ((∃ r q, ParseSymbol env str (fuel + 1) (Symbol.ofChar c) p = .ok (r, q) ∧
        r.success = true) ↔ str[p] = c) := by
  have hch : charAt str p = .ok str[p] := by simp [charAt, hp]
  have hyes : str[p] = c →
      ParseSymbol env str (fuel + 1) (Symbol.ofChar c) p
        = .ok (⟨true, 0, str, p, 1, []⟩, p + 1) := by
    intro h
    simp [ParseSymbol, ParsePattern, Symbol.ofChar, ParseCharacter, hch, h]
  have hno : str[p] ≠ c →
      ParseSymbol env str (fuel + 1) (Symbol.ofChar c) p
        = .ok (⟨false, 0, str, p, 0, []⟩, p) := by
    intro h
    simp [ParseSymbol, ParsePattern, Symbol.ofChar, ParseCharacter, hch, h]
  refine ⟨hyes, hno, ?_⟩
  constructor
  · rintro ⟨r, q, h, hs⟩
    by_contra hne
    rw [hno hne] at h
    injection h with h
    injection h with h1 _
    rw [← h1] at hs
    cases hs
  · intro h
    exact ⟨_, _, hyes h, rfl⟩

/-- Witness of C11: the character `b` at cursor 1 of the text `ab`. -/
theorem character_terminal_witness :
    ((['a', 'b'] : List Char)[1] = 'b' →
      ParseSymbol zeroedEnv ['a', 'b'] (0 + 1) (Symbol.ofChar 'b') 1
        = .ok (⟨true, 0, ['a', 'b'], 1, 1, []⟩, 1 + 1)) ∧
    ((['a', 'b'] : List Char)[1] ≠ 'b' →
      ParseSymbol zeroedEnv ['a', 'b'] (0 + 1) (Symbol.ofChar 'b') 1
        = .ok (⟨false, 0, ['a', 'b'], 1, 0, []⟩, 1)) ∧
    ((∃ r q, ParseSymbol zeroedEnv ['a', 'b'] (0 + 1) (Symbol.ofChar 'b') 1 = .ok (r, q) ∧
        r.success = true) ↔ (['a', 'b'] : List Char)[1] = 'b') :=
  character_terminal zeroedEnv ['a', 'b'] 0 'b' 1 (by decide)

/-- C12: the literal-string terminal.  At a cursor `p` not beyond the text,
matching the literal `s` succeeds iff the text has at least `|s|` characters
from `p` and `text[p .. p+|s|) = s`; on success the Result has `start = p` and
`length = |s|` and the cursor becomes `p + |s|`; on failure the Result has
`start = p` and `length = 0` and the cursor stays `p`. -/
theorem string_terminal (env : Env) (str : List Char) (fuel : Nat) (s : List Char)
    (p : Nat) (hp : p ≤ str.length) :
    ((p + s.length ≤ str.length ∧ (str.drop p).take s.length = s) →
      ParseSymbol env str (fuel + 1) (Symbol.ofString s) p
        = .ok (⟨true, 0, str, p, s.length, []⟩, p + s.length)) ∧
    (¬ (p + s.length ≤ str.length ∧ (str.drop p).take s.length = s) →
      ParseSymbol env str (fuel + 1) (Symbol.ofString s) p
        = .ok (⟨false, 0, str, p, 0, []⟩, p)) ∧
    ((∃ r q, ParseSymbol env str (fuel + 1) (Symbol.ofString s) p = .ok (r, q) ∧
        r.success = true) ↔
      (p + s.length ≤ str.length ∧ (str.drop p).take s.length = s)) := by
  have hlen : (str.drop p).take s.length = s → p + s.length ≤ str.length := by
    intro h
    have := congrArg List.length h
    simp at this
    omega
  have hyes : (p + s.length ≤ str.length ∧ (str.drop p).take s.length = s) →
      ParseSymbol env str (fuel + 1) (Symbol.ofString s) p
        = .ok (⟨true, 0, str, p, s.length, []⟩, p + s.length) := by
    intro h
    simp [ParseSymbol, ParsePattern, Symbol.ofString, ParseString, substr, hp, h.2]
  have hno : ¬ (p + s.length ≤ str.length ∧ (str.drop p).take s.length = s) →
      ParseSymbol env str (fuel + 1) (Symbol.ofString s) p
        = .ok (⟨false, 0, str, p, 0, []⟩, p) := by
    intro h
    have h2 : ¬ (str.drop p).take s.length = s := fun e => h ⟨hlen e, e⟩
    simp [ParseSymbol, ParsePattern, Symbol.ofString, ParseString, substr, hp, h2]
  refine ⟨hyes, hno, ?_⟩
  constructor
  · rintro ⟨r, q, h, hs⟩
    by_contra hne
    rw [hno hne] at h
    injection h with h
    injection h with h1 _
    rw [← h1] at hs
    cases hs
  · intro h
    exact ⟨_, _, hyes h, rfl⟩

/-- Witness of C12: the literal `bc` at cursor 1 of the text `abc`. -/
theorem string_terminal_witness :
    ParseSymbol zeroedEnv ['a', 'b', 'c'] (0 + 1) (Symbol.ofString ['b', 'c']) 1
      = .ok (⟨true, 0, ['a', 'b', 'c'], 1, ['b', 'c'].length, []⟩, 1 + ['b', 'c'].length) :=
  (string_terminal zeroedEnv ['a', 'b', 'c'] 0 ['b', 'c'] 1 (by decide)).1
    ⟨by decide, by decide⟩

/-- C13 (as stated, refuted): the expression `b`, which carries no anchor, is
matched on the text `ab` from cursor 0.  The search finds its match at offset 1,
yet the terminal succeeds and reports the span `[0, 1)`, the text `a`, and
moves the cursor to 1: a match that begins after the cursor is accepted, and
the reported span is not the text the expression matched. -/
theorem regex_anchor_counterexample :
    (regexChar 'b').search ((['a', 'b'] : List Char).drop 0) = some (1, 1) ∧
    ParseSymbol zeroedEnv ['a', 'b'] 1 (.pattern (.RegularExpression (regexChar 'b'))) 0
      = .ok (⟨true, 0, ['a', 'b'], 0, 1, []⟩, 1) ∧
    ((['a', 'b'] : List Char).drop 0).take 1 ≠ ['b'] :=
  ⟨by decide, rfl, by decide⟩

/-- C13 (amended): at a cursor `p` not beyond the text the regular-expression
terminal succeeds iff `std::regex_search` finds a match of the expression in
the text from offset `p` on; on success the Result has `start = p` and
`length` the length of that match, and the cursor becomes `p + length`; the
reported span is the text the expression matched whenever the match begins
exactly at `p`, as every match of an expression that carries its own start
anchor does. -/
theorem regex_terminal (env : Env) (str : List Char) (fuel : Nat)
    (rgx : RegularExpression) (p : Nat) (hp : p ≤ str.length) :
    (∀ pos len, rgx.search (str.drop p) = some (pos, len) →
      ParseSymbol env str (fuel + 1) (.pattern (.RegularExpression rgx)) p
          = .ok (⟨true, 0, str, p, len, []⟩, p + len) ∧
        (pos = 0 → (str.drop p).take len = ((str.drop p).drop pos).take len)) ∧
    (rgx.search (str.drop p) = none →
      ParseSymbol env str (fuel + 1) (.pattern (.RegularExpression rgx)) p
        = .ok (⟨false, 0, str, p, 0, []⟩, p)) ∧
    ((∃ r q, ParseSymbol env str (fuel + 1) (.pattern (.RegularExpression rgx)) p
        = .ok (r, q) ∧ r.success = true) ↔
      ∃ pos len, rgx.search (str.drop p) = some (pos, len)) := by
  have hyes : ∀ pos len, rgx.search (str.drop p) = some (pos, len) →
      ParseSymbol env str (fuel + 1) (.pattern (.RegularExpression rgx)) p
          = .ok (⟨true, 0, str, p, len, []⟩, p + len) := by
    intro pos len h
    simp [ParseSymbol, ParsePattern, ParseRegularExpression, hp, h]
  have hno : rgx.search (str.drop p) = none →
      ParseSymbol env str (fuel + 1) (.pattern (.RegularExpression rgx)) p
        = .ok (⟨false, 0, str, p, 0, []⟩, p) := by
    intro h
    simp [ParseSymbol, ParsePattern, ParseRegularExpression, hp, h]
  refine ⟨fun pos len h => ⟨hyes pos len h, fun h0 => by subst h0; simp⟩, hno, ?_⟩
  constructor
  · rintro ⟨r, q, h, hs⟩
    cases hm : rgx.search (str.drop p) with
    | none =>
      rw [hno hm] at h
      injection h with h
      injection h with h1 _
      rw [← h1] at hs
      cases hs
    | some m => exact ⟨m.1, m.2, rfl⟩
  · rintro ⟨pos, len, h⟩
    exact ⟨_, _, hyes pos len h, rfl⟩

/-- Witness of C13: the expression `^[0-9]+` at cursor 1 of the text `a12b`
matches the two digits there. -/
theorem regex_terminal_witness :
    ParseSymbol zeroedEnv ['a', '1', '2', 'b'] (0 + 1)
        (.pattern (.RegularExpression regexDigits)) 1
      = .ok (⟨true, 0, ['a', '1', '2', 'b'], 1, 2, []⟩, 1 + 2) :=
  ((regex_terminal zeroedEnv ['a', '1', '2', 'b'] 0 regexDigits 1 (by decide)).1 0 2
    (by decide)).1

/-- C14: Epsilon.  From every cursor `p` the match of Epsilon returns the Result
`{true, 0, text, p, 0}` without children and leaves the cursor at `p`. -/
theorem epsilon_terminal (env : Env) (str : List Char) (fuel : Nat) (p : Nat) :
    ParseSymbol env str (fuel + 1) (.pattern .Epsilon) p
      = .ok (⟨true, 0, str, p, 0, []⟩, p) := rfl

/-! ## Builder operators -/

/-- C15: the builder operators append in declaration order.  For a Choice `a`
with `n` alternatives and a Symbol `b`, `a / b` has `n + 1` alternatives, its
first `n` are those of `a` in the same order and its last is `b`, whether or
not `b` occurs in `a` already or holds a Choice itself (nothing is removed and
`b` is not flattened); and for two Symbols `a` and `b`, `a / b` is the
two-alternative Choice `[a, b]`. -/
theorem builder_operators_append (a : List Symbol) (b x y : Symbol)
    (inner : List Symbol) :
    operatorDivChoice a b = a ++ [b] ∧
    (operatorDivChoice a b).length = a.length + 1 ∧
    (operatorDivChoice a b).take a.length = a ∧
    (operatorDivChoice a b)[a.length]? = some b ∧
    operatorDivChoice (operatorDivChoice a b) b = a ++ [b, b] ∧
    operatorDivChoice a (.pattern (.Choice inner)) = a ++ [.pattern (.Choice inner)] ∧
    operatorDivSymbol x y = [x, y] ∧
    operatorDivChoice (operatorDivSymbol x y) b = [x, y, b] := by
  refine ⟨rfl, ?_, ?_, ?_, ?_, rfl, rfl, rfl⟩
  · simp [operatorDivChoice]
  · simp [operatorDivChoice]
  · simp [operatorDivChoice]
  · simp [operatorDivChoice]

/-! ## Scenarios -/

/-- C16: the arithmetic scenario.  On every host that runs the expression
grammar, parsing `1+2*3` from the rule `Expression` returns, for every fuel from
9 on, one successful Result tree spanning the five characters, and
`expression::action::Expression` evaluates that tree to 7 for every fuel from
5 on: the Term `2*3` is evaluated to 6 before it is added to 1. -/
theorem arithmetic_scenario (env : Env) (h : env.rules = expression.grammar.rules) :
    (∀ k, Parse env (k + 9) expression.scenario expression.grammar.Expression.ptr
      = .ok expression.scenarioTree) ∧
    expression.scenarioTree.success = true ∧
    expression.scenarioTree.start + expression.scenarioTree.length
      = expression.scenario.length ∧
    (∀ k, expression.action.Expression (k + 5) expression.scenarioTree = .ok 7) ∧
    (∀ k, (do
        let tail ← expression.scenarioTree.child 1
        expression.action.Term (k + 3) (← tail.child 1)) = .ok 6) := by
  obtain ⟨rules, b, i, s, l⟩ := env
  simp only at h
  subst h
  exact ⟨fun _ => rfl, rfl, rfl, fun _ => rfl, fun _ => rfl⟩

/-- Witness of C16: the host whose storage for `longest` is zeroed. -/
theorem arithmetic_scenario_witness :
    Parse ⟨expression.grammar.rules, false, 0, 0, 0⟩ (0 + 9) expression.scenario
        expression.grammar.Expression.ptr = .ok expression.scenarioTree ∧
    expression.action.Expression (0 + 5) expression.scenarioTree = .ok 7 :=
  ⟨(arithmetic_scenario ⟨expression.grammar.rules, false, 0, 0, 0⟩ rfl).1 0,
    (arithmetic_scenario ⟨expression.grammar.rules, false, 0, 0, 0⟩ rfl).2.2.2.1 0⟩

/-- C17 (the code at the failing input): on every host that runs the JSON
grammar, parsing `[1,2,3]` from the rule `Array` returns, for every fuel from 10
on, one successful Result tree; its first child is the Result of the character
`[`, a leaf.  `json::action::Array` takes that child for a Choice node and
reads its `children[0]`, which does not exist, so it yields no array
(whatever the fuel and however the compiler list-initialises), and so does
`json::action::ValueList` on the Result of the value list. -/
theorem json_array_scenario_action_out_of_bounds (env : Env)
    (h : env.rules = json.grammar.rules) :
    (∀ k, Parse env (k + 10) json.scenario json.grammar.Array.ptr
      = .ok json.scenarioTree) ∧
    json.scenarioTree.success = true ∧
    json.scenarioTree.child 0 = .ok ⟨true, 0, json.scenario, 0, 1, []⟩ ∧
    (∀ copies k, json.action.Array copies json.scenario (k + 1) json.scenarioTree
      = .error .outOfBounds) ∧
    (∀ copies k, (do
        json.action.ValueList copies json.scenario (k + 1)
          (← json.scenarioTree.child 1)) = .error .outOfBounds) := by
  obtain ⟨rules, b, i, s, l⟩ := env
  simp only at h
  subst h
  exact ⟨fun _ => rfl, rfl, rfl, fun _ _ => rfl, fun _ _ => rfl⟩

/-- Witness of the C17 evaluation: the host whose storage for `longest` is
zeroed. -/
theorem json_array_scenario_action_out_of_bounds_witness :
    Parse ⟨json.grammar.rules, false, 0, 0, 0⟩ (0 + 10) json.scenario
        json.grammar.Array.ptr = .ok json.scenarioTree ∧
    json.action.Array true json.scenario (0 + 1) json.scenarioTree = .error .outOfBounds :=
  ⟨(json_array_scenario_action_out_of_bounds ⟨json.grammar.rules, false, 0, 0, 0⟩ rfl).1 0,
    (json_array_scenario_action_out_of_bounds
      ⟨json.grammar.rules, false, 0, 0, 0⟩ rfl).2.2.2.1 true 0⟩

/-! ## Recursion -/

/-- C18: left recursion never returns.  When the rule `R` produces a Sequence or
a Choice whose first member is the rule reference `R` itself, the match of `R`
exhausts every amount of fuel, on every text and from every cursor: it never
produces a Result, not even a failing one. -/
theorem left_recursion_exhausts_fuel (env : Env) (str : List Char) (R : Nat)
    (rest : List Symbol)
    (h : env.rules R = .Sequence (.rule R :: rest) ∨
      env.rules R = .Choice (.rule R :: rest)) :
    ∀ fuel p, ParseSymbol env str fuel (.rule R) p = .error .outOfFuel := by
  intro fuel
  induction fuel with
  | zero => intro p; rfl
  | succ fuel ih =>
    intro p
    rcases h with h | h
    · simp [ParseSymbol, h, ParsePattern, ParseSequence, sequenceLoop, ih p]
    · simp [ParseSymbol, h, ParsePattern, ParseChoice, choiceLoop, ih p]

/-- Witness of C18: the rule 0 of `leftRecursiveEnv`, the Sequence `{R, 'a'}`, on
the text `a` with fuel 1000. -/
theorem left_recursion_exhausts_fuel_witness :
    ParseSymbol leftRecursiveEnv ['a'] 1000 (.rule 0) 0 = .error .outOfFuel :=
  left_recursion_exhausts_fuel leftRecursiveEnv ['a'] 0 [Symbol.ofChar 'a']
    (Or.inl rfl) 1000 0

/-! ## Coherence of cursor and span -/

theorem SequenceRun.contiguous {B : Nat} {rec : Symbol → Nat → Outcome}
    {seq : List Symbol} {p : Nat} {rs : List Result} {ok : Bool} {q : Nat}
    (h : SequenceRun rec seq p rs ok q) :
    (∀ s ∈ seq, ∀ p1, p1 ≤ B → Coherent B p1 (rec s p1)) → p ≤ B → ok = true →
    List.Chain' (fun a b : Result => b.start = a.start + a.length) rs ∧
      ∀ first, rs.head? = some first → first.start = p := by
  induction h with
  | done p => intro _ _ _; simp
  | failed s rest p r q hs hr => intro _ _ hok; cases hok
  | step s rest p r p1 rs ok q hs hr _ ih =>
    intro hrec hp hok
    obtain ⟨_, h2, h3, _⟩ := hrec s (List.mem_cons_self _ _) p hp r p1 hs
    obtain ⟨e1, e2⟩ := h3 hr
    obtain ⟨c1, c2⟩ := ih (fun t ht => hrec t (List.mem_cons_of_mem _ ht)) h2 hok
    refine ⟨?_, ?_⟩
    · rw [List.chain'_cons']
      refine ⟨?_, c1⟩
      intro y hy
      have := c2 y (by simpa using hy)
      omega
    · intro first hf
      simp only [List.head?_cons, Option.some.injEq] at hf
      subst hf
      exact e1

/-- When the storage of `longest` does not hold a stale success flag, a
successful match from cursor `p` starts at `p` and leaves the cursor at
`start + length`, the children of a successful Sequence are contiguous, and a
successful top-level `Parse` starts at 0. -/
theorem coherence_of_clean_longest (env : Env) (str : List Char)
    (hsize : str.length + 1 < SIZE_MOD) (hj : env.longestSuccess = false)
    (fuel : Nat) :
    (∀ sym p r q, p ≤ str.length + 1 → ParseSymbol env str fuel sym p = .ok (r, q) →
      r.success = true → r.start = p ∧ q = r.start + r.length) ∧
    (∀ seq p r q, p ≤ str.length + 1 →
      ParseSymbol env str (fuel + 1) (.pattern (.Sequence seq)) p = .ok (r, q) →
      r.success = true →
      List.Chain' (fun a b : Result => b.start = a.start + a.length) r.children) ∧
    (∀ sym r, Parse env fuel str sym = .ok r → r.success = true → r.start = 0) := by
  have h1 : ∀ fuel sym p r q, p ≤ str.length + 1 →
      ParseSymbol env str fuel sym p = .ok (r, q) →
      r.success = true → r.start = p ∧ q = r.start + r.length := by
    intro fuel sym p r q hp h hs
    obtain ⟨_, _, h3, _⟩ := ParseSymbol_coherent env str hsize hj fuel sym p hp r q h
    obtain ⟨e1, e2⟩ := h3 hs
    exact ⟨e1, by omega⟩
  refine ⟨h1 fuel, ?_, ?_⟩
  · intro seq p r q hp h hs
    have hrun := run_of_ParseSequence _ str seq p r q
      (by simpa [ParseSymbol, ParsePattern] using h)
    exact (hrun.contiguous (B := str.length + 1)
      (fun s _ p1 hp1 => ParseSymbol_coherent env str hsize hj fuel s p1 hp1) hp hs).1
  · intro sym r h hs
    unfold Parse at h
    cases hps : ParseSymbol env str fuel sym 0 with
    | error e => rw [hps] at h; cases h
    | ok v =>
      obtain ⟨r1, q⟩ := v
      rw [hps] at h
      injection h with h
      subst h
      exact (h1 fuel sym 0 r1 q (Nat.zero_le _) hps hs).1

/-- C19 (the code at the failing input): with a stale success flag in the
storage of `longest`, the Choice `a` on the text `b` fails at its only
alternative and `Parse` returns `longest` flagged successful with `start = 1`,
not 0, while the cursor stays 0, not `start + length = 2`; and the Sequence of
that Choice and the character `b` succeeds with the children `(1, 1)` and
`(0, 1)`, which are not contiguous. -/
theorem stale_success_breaks_coherence :
    Parse staleEnv 2 ['b'] (.pattern (.Choice [Symbol.ofChar 'a']))
      = .ok ⟨true, 0, [], 1, 1, []⟩ ∧
    ParseSymbol staleEnv ['b'] 2 (.pattern (.Choice [Symbol.ofChar 'a'])) 0
      = .ok (⟨true, 0, [], 1, 1, []⟩, 0) ∧
    ParseSymbol staleEnv ['b'] 3
        (.pattern (.Sequence [.pattern (.Choice [Symbol.ofChar 'a']), Symbol.ofChar 'b'])) 0
      = .ok (⟨true, 0, ['b'], 1, 0,
          [⟨true, 0, [], 1, 1, []⟩, ⟨true, 0, ['b'], 0, 1, []⟩]⟩, 1) ∧
    (⟨true, 0, ['b'], 0, 1, []⟩ : Result).start
      ≠ (⟨true, 0, [], 1, 1, []⟩ : Result).start
        + (⟨true, 0, [], 1, 1, []⟩ : Result).length :=
  ⟨rfl, rfl, rfl, by decide⟩

/-! ## The index of a Choice -/

theorem choiceLoop_returns (rec : Symbol → Nat → Outcome) (p : Nat) :
    ∀ (alts : List Symbol) (index : Int) (longest : Result) (r : Result) (q : Nat),
      choiceLoop rec alts index longest p = .ok (r, q) →
      r = longest ∨ ∃ (i : Nat) (alt : Symbol) (r0 : Result) (q0 : Nat),
        alts[i]? = some alt ∧ rec alt p = .ok (r0, q0) ∧
        r = { r0 with index := index + (i : Int) } := by
  intro alts
  induction alts with
  | nil =>
    intro index longest r q h
    simp only [choiceLoop] at h
    injection h with h
    injection h with e1 _
    exact Or.inl e1.symm
  | cons a rest ih =>
    intro index longest r q h
    cases hra : rec a p with
    | error e => simp [choiceLoop, hra] at h
    | ok v =>
      obtain ⟨r0, q0⟩ := v
      have here : ∃ (i : Nat) (alt : Symbol) (r1 : Result) (q1 : Nat),
          (a :: rest)[i]? = some alt ∧ rec alt p = .ok (r1, q1) ∧
          ({ r0 with index := index } : Result) = { r1 with index := index + (i : Int) } :=
        ⟨0, a, r0, q0, by simp, hra, by simp⟩
      cases hs0 : r0.success with
      | true =>
        rw [choiceLoop_cons_success rec a rest index longest p r0 q0 hra hs0] at h
        injection h with h
        injection h with e1 _
        right
        rw [← e1]
        exact here
      | false =>
        rw [choiceLoop_cons_fail rec a rest index longest p r0 q0 hra hs0] at h
        rcases ih _ _ r q h with hl | ⟨i, alt, r1, q1, hi, hr1, hr⟩
        · split at hl
          · right; rw [hl]; exact here
          · exact Or.inl hl
        · right
          refine ⟨i + 1, alt, r1, q1, by simpa using hi, hr1, ?_⟩
          rw [hr]
          have : index + 1 + (i : Int) = index + ((i + 1 : Nat) : Int) := by
            push_cast; ring
          rw [this]

/-- C20: a Choice overwrites the index of the Result it returns.  Whatever a
Choice returns is either its local `longest` as declared, or the Result `r0`
of one of its alternatives, the one of ordinal `i`, with the field `index`
replaced by `i` and `success`, `str`, `start`, `length` and `children`
unchanged. -/
theorem choice_overwrites_index (env : Env) (str : List Char) (fuel : Nat)
    (alts : List Symbol) (p : Nat) (r : Result) (q : Nat)
    (h : ParseSymbol env str (fuel + 1) (.pattern (.Choice alts)) p = .ok (r, q)) :
    r = env.longest ∨ ∃ (i : Nat) (alt : Symbol) (r0 : Result) (q0 : Nat),
      alts[i]? = some alt ∧ ParseSymbol env str fuel alt p = .ok (r0, q0) ∧
      r = { r0 with index := (i : Int) } ∧
      r.index = (i : Int) ∧ r.success = r0.success ∧ r.str = r0.str ∧
      r.start = r0.start ∧ r.length = r0.length ∧ r.children = r0.children := by
  simp only [ParseSymbol, ParsePattern, ParseChoice] at h
  rcases choiceLoop_returns _ p alts 0 env.longest r q h with hl | ⟨i, alt, r0, q0, hi, h0, hr⟩
  · exact Or.inl hl
  · right
    rw [zero_add] at hr
    refine ⟨i, alt, r0, q0, hi, h0, hr, ?_⟩
    rw [hr]
    exact ⟨rfl, rfl, rfl, rfl, rfl, rfl⟩

/-- Witness of C20: the Choice `(a / b) / c`.  On the text `b` the inner Choice
returns the Result of `b` with index 1 and the outer Choice returns it with
index 0, as it does on the text `a` where the inner index was 0; and with the
inner alternatives swapped, `(b / a) / c`, the inner index on the text `b` is 0
while the outer Result is the very same. -/
theorem choice_overwrites_index_witness :
    (⟨true, 0, ['b'], 0, 1, []⟩ = staleEnv.longest ∨
      ∃ (i : Nat) (alt : Symbol) (r0 : Result) (q0 : Nat),
        [Symbol.pattern (.Choice [Symbol.ofChar 'a', Symbol.ofChar 'b']),
          Symbol.ofChar 'c'][i]? = some alt ∧
        ParseSymbol staleEnv ['b'] 2 alt 0 = .ok (r0, q0) ∧
        (⟨true, 0, ['b'], 0, 1, []⟩ : Result) = { r0 with index := (i : Int) } ∧
        (⟨true, 0, ['b'], 0, 1, []⟩ : Result).index = (i : Int) ∧
        (⟨true, 0, ['b'], 0, 1, []⟩ : Result).success = r0.success ∧
        (⟨true, 0, ['b'], 0, 1, []⟩ : Result).str = r0.str ∧
        (⟨true, 0, ['b'], 0, 1, []⟩ : Result).start = r0.start ∧
        (⟨true, 0, ['b'], 0, 1, []⟩ : Result).length = r0.length ∧
        (⟨true, 0, ['b'], 0, 1, []⟩ : Result).children = r0.children) ∧
    ParseSymbol staleEnv ['b'] 2
        (.pattern (.Choice [Symbol.ofChar 'a', Symbol.ofChar 'b'])) 0
      = .ok (⟨true, 1, ['b'], 0, 1, []⟩, 1) ∧
    ParseSymbol staleEnv ['a'] 2
        (.pattern (.Choice [Symbol.ofChar 'a', Symbol.ofChar 'b'])) 0
      = .ok (⟨true, 0, ['a'], 0, 1, []⟩, 1) ∧
    ParseSymbol staleEnv ['a'] 3
        (.pattern (.Choice [.pattern (.Choice [Symbol.ofChar 'a', Symbol.ofChar 'b']),
          Symbol.ofChar 'c'])) 0
      = .ok (⟨true, 0, ['a'], 0, 1, []⟩, 1) ∧
    ParseSymbol staleEnv ['b'] 2
        (.pattern (.Choice [Symbol.ofChar 'b', Symbol.ofChar 'a'])) 0
      = .ok (⟨true, 0, ['b'], 0, 1, []⟩, 1) ∧
    ParseSymbol staleEnv ['b'] 3
        (.pattern (.Choice [.pattern (.Choice [Symbol.ofChar 'b', Symbol.ofChar 'a']),
          Symbol.ofChar 'c'])) 0
      = ParseSymbol staleEnv ['b'] 3
        (.pattern (.Choice [.pattern (.Choice [Symbol.ofChar 'a', Symbol.ofChar 'b']),
          Symbol.ofChar 'c'])) 0 :=
  ⟨choice_overwrites_index staleEnv ['b'] 2
      [.pattern (.Choice [Symbol.ofChar 'a', Symbol.ofChar 'b']), Symbol.ofChar 'c'] 0
      ⟨true, 0, ['b'], 0, 1, []⟩ 1 rfl,
    rfl, rfl, rfl, rfl, rfl⟩

end frog
